import Mathlib

/-!
# KubeBlocks reconciliation core: a shallow embedding

Sources embedded here:

* `pkg/controller/kubebuilderx/plan_builder.go`: the dispatch of intent nodes
  (`rsmWalkFunc`, `createObject`, `updateObject`, `patchObject`, `deleteObject`,
  `statusObject`) and `Plan.Execute`;
* `pkg/controller/configuration/resource_wrapper.go`: `ResourceFetcher`;
* `apis/apps/v1alpha1/config_meta.go`: `GetConfigurationItem`, `GetConfigSpec`;
* `pkg/controller/rsm2/reconciler_replicas_alignment_test.go`: the scenario of the
  replicas alignment reconciler.

Go pointers that may be nil are `Option`s, a Go `error` result is an `Option Error`
(`none` is `nil`), and code that mutates an object through a pointer returns the new value.
-/

namespace KubeBlocks

/-! ## Errors (`k8s.io/apimachinery/pkg/api/errors`) -/

/-- Status reasons carried by an API error. -/
inductive StatusReason where
  | NotFound
  | AlreadyExists
  | Conflict
  | Other (reason : String)
  deriving DecidableEq, Repr

/-- A non-nil Go `error`: either an API status error or a plain error made with
`errors.New` / `fmt.Errorf`. -/
inductive Error where
  | status (reason : StatusReason) (message : String)
  | text (message : String)
  deriving DecidableEq, Repr

/-- The predicate `apierrors.IsNotFound`. -/
def IsNotFound : Error → Bool
  | .status .NotFound _ => true
  | _ => false

/-- The predicate `apierrors.IsAlreadyExists`. -/
def IsAlreadyExists : Error → Bool
  | .status .AlreadyExists _ => true
  | _ => false

/-! ## Objects and intent nodes -/

/-- Identity of a cluster object. -/
structure ObjectKey where
  kind : String
  ns : String
  name : String
  deriving DecidableEq, Repr

/-- A `client.Object`: identity, the metadata the dispatch and the cluster read (resource
version, with 0 for the empty string; finalizers; deletion timestamp) and its content,
split in spec and status. -/
structure Object where
  kind : String
  ns : String
  name : String
  resourceVersion : Nat
  finalizers : List String
  deletionTimestamp : Option Nat
  spec : String
  status : String
  deriving DecidableEq, Repr

/-- The key of an object. -/
def Object.key (o : Object) : ObjectKey := ⟨o.kind, o.ns, o.name⟩

/-- The type `model.Action`, a Go string type: the five values `rsmWalkFunc` switches on,
and any other value (for which the switch falls through). -/
inductive Action where
  | CREATE
  | UPDATE
  | PATCH
  | DELETE
  | STATUS
  | other (value : String)
  deriving DecidableEq, Repr

/-- Per-call client options, as computed by `rsm1.ClientOption`. -/
abbrev ClientOpt := String

/-- The type `model.ObjectVertex`: target object, original object (diff base of a patch),
and the action, a pointer that may be nil. -/
structure ObjectVertex where
  Obj : Object
  OriObj : Option Object
  Action : Option Action
  deriving DecidableEq, Repr

/-- A `graph.Vertex`: an interface value, which `rsmWalkFunc` type-asserts to
`*model.ObjectVertex`. -/
inductive Vertex where
  | object (v : ObjectVertex)
  | foreign (repr : String)
  deriving DecidableEq, Repr

/-! ## The cluster client (`client.Client`, an external collaborator) -/

/-- What a client call gives back: the error, the object as the call left it (the client
writes the server response through the pointer it was given) and the new cluster state. -/
structure Reply (σ : Type) where
  err : Option Error
  obj : Object
  state : σ

/-- A cluster client over cluster states `σ`: one transition function per operation the
dispatch issues. `Patch` receives the base of `client.MergeFrom`. -/
structure Client (σ : Type) where
  Create : Object → ClientOpt → σ → Reply σ
  Update : Object → ClientOpt → σ → Reply σ
  Patch : Object → Option Object → ClientOpt → σ → Reply σ
  Delete : Object → ClientOpt → σ → Reply σ
  StatusUpdate : Object → ClientOpt → σ → Reply σ

/-- The client operations. -/
inductive Verb where
  | Create
  | Update
  | Patch
  | Delete
  | StatusUpdate
  deriving DecidableEq, Repr

/-- One issued client call: operation, object passed, merge base (patch only), options,
and the error the client returned. -/
structure CallRecord where
  verb : Verb
  obj : Object
  base : Option Object
  opt : ClientOpt
  result : Option Error
  deriving DecidableEq, Repr

/-- The cluster state together with the log of the client calls issued so far
(oldest first). -/
structure World (σ : Type) where
  state : σ
  calls : List CallRecord

/-- Result of a client call issued from the dispatch layer. -/
structure Issued (σ : Type) where
  err : Option Error
  obj : Object
  world : World σ

/-- Issue `b.cli.Create(ctx, obj, opt)` and log it. -/
def World.create {σ : Type} (cli : Client σ) (obj : Object) (opt : ClientOpt)
    (w : World σ) : Issued σ :=
  let r := cli.Create obj opt w.state
  ⟨r.err, r.obj, ⟨r.state, w.calls ++ [⟨.Create, obj, none, opt, r.err⟩]⟩⟩

/-- Issue `b.cli.Update(ctx, obj, opt)` and log it. -/
def World.update {σ : Type} (cli : Client σ) (obj : Object) (opt : ClientOpt)
    (w : World σ) : Issued σ :=
  let r := cli.Update obj opt w.state
  ⟨r.err, r.obj, ⟨r.state, w.calls ++ [⟨.Update, obj, none, opt, r.err⟩]⟩⟩

/-- Issue `b.cli.Patch(ctx, obj, client.MergeFrom(base), opt)` and log it. -/
def World.patch {σ : Type} (cli : Client σ) (obj : Object) (base : Option Object)
    (opt : ClientOpt) (w : World σ) : Issued σ :=
  let r := cli.Patch obj base opt w.state
  ⟨r.err, r.obj, ⟨r.state, w.calls ++ [⟨.Patch, obj, base, opt, r.err⟩]⟩⟩

/-- Issue `b.cli.Delete(ctx, obj, opt)` and log it. -/
def World.delete {σ : Type} (cli : Client σ) (obj : Object) (opt : ClientOpt)
    (w : World σ) : Issued σ :=
  let r := cli.Delete obj opt w.state
  ⟨r.err, r.obj, ⟨r.state, w.calls ++ [⟨.Delete, obj, none, opt, r.err⟩]⟩⟩

/-- Issue `b.cli.Status().Update(ctx, obj, opt)` and log it. -/
def World.statusUpdate {σ : Type} (cli : Client σ) (obj : Object) (opt : ClientOpt)
    (w : World σ) : Issued σ :=
  let r := cli.StatusUpdate obj opt w.state
  ⟨r.err, r.obj, ⟨r.state, w.calls ++ [⟨.StatusUpdate, obj, none, opt, r.err⟩]⟩⟩

/-! ## `PlanBuilder` and the dispatch (`plan_builder.go`) -/

/-- Helpers of other packages of the repository that the dispatch calls and whose bodies
are not part of the sources at hand; they are pure functions of their argument and the
dispatch is embedded for every choice of them. -/
structure Helpers where
  /-- The function `rsm1.GetFinalizer`: the designated finalizer of an object. -/
  GetFinalizer : Object → String
  /-- The function `rsm1.ClientOption`: the per-call options of a vertex. -/
  ClientOption : ObjectVertex → ClientOpt
  /-- The function `model.IsObjectDeleting`: the object is marked for deletion. -/
  IsObjectDeleting : Object → Bool

/-- The struct `PlanBuilder`: the cluster client, and the helpers it reaches. The transform
context (logger, recorder) does not influence the dispatch and is left out. -/
structure PlanBuilder (σ : Type) where
  cli : Client σ
  helpers : Helpers

/-- What a dispatch handler leaves behind: the returned error, the vertex (its object is
mutated through the pointer) and the world. -/
structure Outcome (σ : Type) where
  err : Option Error
  vertex : ObjectVertex
  world : World σ

/-- The function `controllerutil.RemoveFinalizer`: drops every occurrence of the finalizer
and reports whether the list changed. -/
def RemoveFinalizer (o : Object) (finalizer : String) : Object × Bool :=
  let f := o.finalizers.filter (fun x => x != finalizer)
  ({ o with finalizers := f }, o.finalizers.length != f.length)

/-- The method `PlanBuilder.createObject`. -/
def PlanBuilder.createObject {σ : Type} (b : PlanBuilder σ) (vertex : ObjectVertex)
    (w : World σ) : Outcome σ :=
  let r := w.create b.cli vertex.Obj (b.helpers.ClientOption vertex)
  let vertex := { vertex with Obj := r.obj }
  match r.err with
  | some err => if !IsAlreadyExists err then ⟨some err, vertex, r.world⟩
    else ⟨none, vertex, r.world⟩
  | none => ⟨none, vertex, r.world⟩

/-- The method `PlanBuilder.updateObject`. -/
def PlanBuilder.updateObject {σ : Type} (b : PlanBuilder σ) (vertex : ObjectVertex)
    (w : World σ) : Outcome σ :=
  let r := w.update b.cli vertex.Obj (b.helpers.ClientOption vertex)
  let vertex := { vertex with Obj := r.obj }
  match r.err with
  | some err => if !IsNotFound err then ⟨some err, vertex, r.world⟩
    else ⟨none, vertex, r.world⟩
  | none => ⟨none, vertex, r.world⟩

/-- The method `PlanBuilder.patchObject`: the patch is `client.MergeFrom(vertex.OriObj)`. -/
def PlanBuilder.patchObject {σ : Type} (b : PlanBuilder σ) (vertex : ObjectVertex)
    (w : World σ) : Outcome σ :=
  let patch := vertex.OriObj
  let r := w.patch b.cli vertex.Obj patch (b.helpers.ClientOption vertex)
  let vertex := { vertex with Obj := r.obj }
  match r.err with
  | some err => if !IsNotFound err then ⟨some err, vertex, r.world⟩
    else ⟨none, vertex, r.world⟩
  | none => ⟨none, vertex, r.world⟩

/-- The second half of `PlanBuilder.deleteObject`: the delete call, unless the object is
already marked for deletion. -/
def PlanBuilder.deleteUnlessDeleting {σ : Type} (b : PlanBuilder σ) (vertex : ObjectVertex)
    (w : World σ) : Outcome σ :=
  if !b.helpers.IsObjectDeleting vertex.Obj then
    let r := w.delete b.cli vertex.Obj (b.helpers.ClientOption vertex)
    let vertex := { vertex with Obj := r.obj }
    match r.err with
    | some err => if !IsNotFound err then ⟨some err, vertex, r.world⟩
      else ⟨none, vertex, r.world⟩
    | none => ⟨none, vertex, r.world⟩
  else ⟨none, vertex, w⟩

/-- The method `PlanBuilder.deleteObject`. (The logger call on the error path has no effect
on the result.) -/
def PlanBuilder.deleteObject {σ : Type} (b : PlanBuilder σ) (vertex : ObjectVertex)
    (w : World σ) : Outcome σ :=
  let finalizer := b.helpers.GetFinalizer vertex.Obj
  let removed := RemoveFinalizer vertex.Obj finalizer
  let vertex := { vertex with Obj := removed.1 }
  if removed.2 then
    let r := w.update b.cli vertex.Obj (b.helpers.ClientOption vertex)
    let vertex := { vertex with Obj := r.obj }
    match r.err with
    | some err => if !IsNotFound err then ⟨some err, vertex, r.world⟩
      else b.deleteUnlessDeleting vertex r.world
    | none => b.deleteUnlessDeleting vertex r.world
  else b.deleteUnlessDeleting vertex w

/-- The method `PlanBuilder.statusObject`. -/
def PlanBuilder.statusObject {σ : Type} (b : PlanBuilder σ) (vertex : ObjectVertex)
    (w : World σ) : Outcome σ :=
  let r := w.statusUpdate b.cli vertex.Obj (b.helpers.ClientOption vertex)
  let vertex := { vertex with Obj := r.obj }
  match r.err with
  | some err => ⟨some err, vertex, r.world⟩
  | none => ⟨none, vertex, r.world⟩

/-- What `rsmWalkFunc` leaves behind: the returned error, the vertex and the world. -/
structure WalkOutcome (σ : Type) where
  err : Option Error
  vertex : Vertex
  world : World σ

/-- Repackage a handler outcome as a walk outcome. -/
def Outcome.toWalk {σ : Type} (o : Outcome σ) : WalkOutcome σ :=
  ⟨o.err, .object o.vertex, o.world⟩

/-- The method `PlanBuilder.rsmWalkFunc`. -/
def PlanBuilder.rsmWalkFunc {σ : Type} (b : PlanBuilder σ) (v : Vertex)
    (w : World σ) : WalkOutcome σ :=
  match v with
  | .foreign repr => ⟨some (.text ("wrong vertex type " ++ repr)), v, w⟩
  | .object vertex =>
    match vertex.Action with
    | none => ⟨some (.text "vertex action can\x27t be nil"), v, w⟩
    | some .CREATE => (b.createObject vertex w).toWalk
    | some .UPDATE => (b.updateObject vertex w).toWalk
    | some .PATCH => (b.patchObject vertex w).toWalk
    | some .DELETE => (b.deleteObject vertex w).toWalk
    | some .STATUS => (b.statusObject vertex w).toWalk
    | some (.other _) => ⟨none, v, w⟩

/-! ## `Plan` (`plan_builder.go`) and the walk of the graph -/

/-- Modelled from the spec: a cluster state, at most one object per key. -/
abbrev Store := ObjectKey → Option Object

/-- The empty cluster. -/
def Store.empty : Store := fun _ => none

/-- The `NotFound` error for an object. -/
def notFound (o : Object) : Error := .status .NotFound (o.name ++ " not found")

/-- The `AlreadyExists` error for an object. -/
def alreadyExists (o : Object) : Error := .status .AlreadyExists (o.name ++ " already exists")

/-- The error of a create whose object carries a resource version. -/
def versionSetOnCreate : Error :=
  .status (.Other "BadRequest") "resourceVersion should not be set on objects to be created"

/-- The `Conflict` error of a write whose resource version is stale. -/
def conflict (o : Object) : Error :=
  .status .Conflict (o.name ++ ": the object has been modified")

/-- The object with every field unset: what a nil base of `client.MergeFrom` marshals to. -/
def Object.unset (o : Object) : Object :=
  { o with resourceVersion := 0, finalizers := [], deletionTimestamp := none, spec := "",
           status := "" }

/-- Apply to the stored object `cur` the merge patch `client.MergeFrom(base)` of `obj`, at
the granularity of the fields of `Object`: a field that differs between `base` and `obj`
is set to the value in `obj`, the others keep the stored value. With a nil base the patch
holds every field that is set in `obj`. The resource version and the deletion timestamp
are the ones of the server. -/
def applyMergeFrom (base : Option Object) (obj cur : Object) : Object :=
  { obj with
    resourceVersion := cur.resourceVersion
    finalizers :=
      if obj.finalizers = (base.getD obj.unset).finalizers then cur.finalizers
      else obj.finalizers
    deletionTimestamp := cur.deletionTimestamp
    spec := if obj.spec = (base.getD obj.unset).spec then cur.spec else obj.spec
    status := if obj.status = (base.getD obj.unset).status then cur.status else obj.status }

/-- The stored object with its status replaced by the status of `obj`. -/
def applyStatus (obj cur : Object) : Object :=
  { obj with
    resourceVersion := cur.resourceVersion
    finalizers := cur.finalizers
    deletionTimestamp := cur.deletionTimestamp
    spec := cur.spec }

/-- Store a written object under a new resource version; an object that is marked for
deletion and carries no finalizer any more leaves the cluster. The stamped object is also
what the client writes back to the caller. -/
def Store.write (s : Store) (o : Object) : Reply Store :=
  if o.deletionTimestamp.isSome ∧ o.finalizers = [] then
    ⟨none, { o with resourceVersion := o.resourceVersion + 1 }, Function.update s o.key none⟩
  else
    ⟨none, { o with resourceVersion := o.resourceVersion + 1 },
      Function.update s o.key (some { o with resourceVersion := o.resourceVersion + 1 })⟩

/-- Modelled from the spec: the in-memory cluster client. `Create` answers `AlreadyExists`
for a key that is taken, the other operations answer `NotFound` for a key that is free;
`Update` replaces the stored object, `Patch` merges into it, `UpdateStatus` replaces its
status, `Delete` removes it, or marks it for deletion while it carries finalizers. -/
def memClient : Client Store where
  Create obj _ s :=
    if obj.resourceVersion ≠ 0 then ⟨some versionSetOnCreate, obj, s⟩
    else
      match s obj.key with
      | some _ => ⟨some (alreadyExists obj), obj, s⟩
      | none => s.write { obj with deletionTimestamp := none }
  Update obj _ s :=
    match s obj.key with
    | some cur =>
      if obj.resourceVersion ≠ 0 ∧ obj.resourceVersion ≠ cur.resourceVersion then
        ⟨some (conflict obj), obj, s⟩
      else
        s.write { obj with
          resourceVersion := cur.resourceVersion
          deletionTimestamp := cur.deletionTimestamp }
    | none => ⟨some (notFound obj), obj, s⟩
  Patch obj base _ s :=
    match s obj.key with
    | some cur => s.write (applyMergeFrom base obj cur)
    | none => ⟨some (notFound obj), obj, s⟩
  Delete obj _ s :=
    match s obj.key with
    | some cur =>
      if cur.finalizers = [] then ⟨none, obj, Function.update s obj.key none⟩
      else
        ⟨none, obj, Function.update s obj.key
          (some { cur with deletionTimestamp := some (cur.deletionTimestamp.getD 1) })⟩
    | none => ⟨some (notFound obj), obj, s⟩
  StatusUpdate obj _ s :=
    match s obj.key with
    | some cur =>
      if obj.resourceVersion ≠ 0 ∧ obj.resourceVersion ≠ cur.resourceVersion then
        ⟨some (conflict obj), obj, s⟩
      else s.write (applyStatus obj cur)
    | none => ⟨some (notFound obj), obj, s⟩

/-- Helpers for the examples: the finalizer of the workload controller, the default call
options, and "marked for deletion" as a set deletion timestamp. -/
def demoHelpers : Helpers where
  GetFinalizer _ := "rsm.workloads.kubeblocks.io/finalizer"
  ClientOption _ := "in-control-context"
  IsObjectDeleting o := o.deletionTimestamp.isSome

/-- A plan builder over the in-memory cluster. -/
def memBuilder (h : Helpers) : PlanBuilder Store := ⟨memClient, h⟩

/-- A pod named `name` in namespace `default`, with the given spec, status, finalizers. -/
def demoObject (name spec status : String) (finalizers : List String) : Object :=
  ⟨"Pod", "default", name, 0, finalizers, none, spec, status⟩

/-- A world with the given cluster state and an empty call log. -/
def World.start {σ : Type} (s : σ) : World σ := ⟨s, []⟩

/-! ## `ConfigurationSpec` lookups (`config_meta.go`) -/

/-- The struct `ComponentConfigSpec`, reduced to its name and the rest of its content. -/
structure ComponentConfigSpec where
  Name : String
  content : String
  deriving DecidableEq, Repr

/-- The struct `ConfigurationItemDetail`: the name, the config spec (a pointer that may be
nil) and the rest of its content. -/
structure ConfigurationItemDetail where
  Name : String
  ConfigSpec : Option ComponentConfigSpec
  content : String
  deriving DecidableEq, Repr

/-- The struct `ConfigurationSpec`, with the slice the lookups range over. -/
structure ConfigurationSpec where
  ConfigItemDetails : List ConfigurationItemDetail
  deriving DecidableEq, Repr

/-- The loop of `GetConfigurationItem` from index `i` on, over the elements that remain:
the index of the first element whose name matches. -/
def GetConfigurationItem.loop (name : String) : List ConfigurationItemDetail → Nat → Option Nat
  | [], _ => none
  | configItem :: rest, i =>
    if configItem.Name = name then some i else GetConfigurationItem.loop name rest (i + 1)

/-- The method `ConfigurationSpec.GetConfigurationItem`. The returned pointer
`&configuration.ConfigItemDetails[i]` is the index `i`; nil is `none`. -/
def ConfigurationSpec.GetConfigurationItem (configuration : ConfigurationSpec)
    (name : String) : Option Nat :=
  GetConfigurationItem.loop name configuration.ConfigItemDetails 0

/-- The method `ConfigurationSpec.GetConfigSpec`. -/
def ConfigurationSpec.GetConfigSpec (configuration : ConfigurationSpec)
    (configSpecName : String) : Option ComponentConfigSpec :=
  match configuration.GetConfigurationItem configSpecName with
  | some i =>
    match configuration.ConfigItemDetails[i]? with
    | some configItem => configItem.ConfigSpec
    | none => none
  | none => none

/-- A configuration with three items, two of them named `mysql`. -/
def demoConfiguration : ConfigurationSpec :=
  ⟨[⟨"redis", none, "a"⟩, ⟨"mysql", some ⟨"mysql", "first"⟩, "b"⟩,
    ⟨"mysql", some ⟨"mysql", "second"⟩, "c"⟩]⟩

/-! ## `ResourceFetcher` (`resource_wrapper.go`) -/

/-- The type `client.ObjectKey`. -/
structure NamespacedName where
  Namespace : String
  Name : String
  deriving DecidableEq, Repr

/-- The spec of a `Cluster`, with the two references the fetcher reads. -/
structure ClusterSpec where
  ClusterDefRef : String
  ClusterVersionRef : String
  deriving DecidableEq, Repr

/-- The struct `appsv1alpha1.Cluster`. -/
structure Cluster where
  Spec : ClusterSpec
  content : String
  deriving DecidableEq, Repr

/-- The zero value `appsv1alpha1.Cluster` with no field set. -/
def Cluster.zero : Cluster := ⟨⟨"", ""⟩, ""⟩

/-- Any other fetched object (`ClusterDefinition`, `ClusterVersion`, `ConfigMap`,
`Configuration`, `ConfigConstraint`, `ClusterComponentSpec`): its content. -/
structure Fetched where
  content : String
  deriving DecidableEq, Repr

/-- The zero value of a fetched object. -/
def Fetched.zero : Fetched := ⟨""⟩

/-- The kinds the fetcher reads. -/
inductive FetchKind where
  | Cluster
  | ClusterDefinition
  | ClusterVersion
  | Configuration
  | ConfigMap
  | ConfigConstraint
  | ComponentSpec
  deriving DecidableEq, Repr

/-- The read side of the cluster client, over reader states `ρ`: `Get` fills the object it
is given and returns an error or nil. `GetComponentSpec` is the function
`controllerutil.GetOriginalOrGeneratedComponentSpecByName` of the repository, whose body is
not at hand; it receives the cluster pointer and the component name. -/
structure Reader (ρ : Type) where
  GetCluster : NamespacedName → Cluster → ρ → Option Error × Cluster × ρ
  GetFetched : FetchKind → NamespacedName → Fetched → ρ → Option Error × Fetched × ρ
  GetComponentSpec : Option Cluster → String → ρ → Option Fetched × Option Error × ρ

/-- Name functions of package `pkg/configuration/core`, whose bodies are not at hand. -/
structure CfgCore where
  GenerateComponentConfigurationName : String → String → String
  GetComponentCfgName : String → String → String → String

/-- The reader state and the log of the reads issued so far (oldest first). -/
structure ReadWorld (ρ : Type) where
  state : ρ
  reads : List (FetchKind × NamespacedName)

/-- The struct `ResourceCtx`: the recorded error and the names. The client lives in the
`Reader` passed along. -/
structure ResourceCtx where
  Err : Option Error
  Namespace : String
  ClusterName : String
  ComponentName : String
  deriving DecidableEq, Repr

/-- The struct `ResourceFetcher`: the embedded context and the fetched objects, each a
pointer that may be nil. -/
structure ResourceFetcher where
  ctx : ResourceCtx
  ClusterObj : Option Cluster
  ClusterDefObj : Option Fetched
  ClusterVerObj : Option Fetched
  ConfigMapObj : Option Fetched
  ConfigurationObj : Option Fetched
  ConfigConstraintObj : Option Fetched
  ClusterComObj : Option Fetched
  deriving DecidableEq, Repr

/-- The function `NewResourceFetcher`: no object fetched yet. -/
def NewResourceFetcher (resourceCtx : ResourceCtx) : ResourceFetcher :=
  ⟨resourceCtx, none, none, none, none, none, none, none⟩

/-- How a fetch step ends: it returns, or the Go runtime panics. -/
inductive Step (α : Type) where
  | returns (a : α)
  | panics (reason : String)
  deriving DecidableEq, Repr

/-- The method `ResourceFetcher.Wrap`: `fn` runs only when no error is recorded, and its
result becomes the recorded error. -/
def ResourceFetcher.Wrap {ρ : Type} (r : ResourceFetcher)
    (fn : ResourceFetcher → ReadWorld ρ → ResourceFetcher × Option Error × ReadWorld ρ)
    (w : ReadWorld ρ) : ResourceFetcher × ReadWorld ρ :=
  match r.ctx.Err with
  | some _ => (r, w)
  | none =>
    let out := fn r w
    ({ out.1 with ctx := { out.1.ctx with Err := out.2.1 } }, out.2.2)

/-- Issue `r.Client.Get` for a cluster and log it. -/
def ReadWorld.getCluster {ρ : Type} (cli : Reader ρ) (key : NamespacedName) (into : Cluster)
    (w : ReadWorld ρ) : Option Error × Cluster × ReadWorld ρ :=
  let out := cli.GetCluster key into w.state
  (out.1, out.2.1, ⟨out.2.2, w.reads ++ [(.Cluster, key)]⟩)

/-- Issue `r.Client.Get` for an object of another kind and log it. -/
def ReadWorld.getFetched {ρ : Type} (cli : Reader ρ) (kind : FetchKind) (key : NamespacedName)
    (into : Fetched) (w : ReadWorld ρ) : Option Error × Fetched × ReadWorld ρ :=
  let out := cli.GetFetched kind key into w.state
  (out.1, out.2.1, ⟨out.2.2, w.reads ++ [(kind, key)]⟩)

/-- The method `ResourceFetcher.Cluster`. -/
def ResourceFetcher.Cluster {ρ : Type} (cli : Reader ρ) (r : ResourceFetcher)
    (w : ReadWorld ρ) : Step (ResourceFetcher × ReadWorld ρ) :=
  let clusterKey : NamespacedName := ⟨r.ctx.Namespace, r.ctx.ClusterName⟩
  .returns (r.Wrap (fun r w =>
    let out := w.getCluster cli clusterKey Cluster.zero
    ({ r with ClusterObj := some out.2.1 }, out.1, out.2.2)) w)

/-- The method `ResourceFetcher.ClusterDef`. The key is built before `Wrap` is entered,
from `r.ClusterObj.Spec.ClusterDefRef`: a nil `ClusterObj` is a nil pointer dereference. -/
def ResourceFetcher.ClusterDef {ρ : Type} (cli : Reader ρ) (r : ResourceFetcher)
    (w : ReadWorld ρ) : Step (ResourceFetcher × ReadWorld ρ) :=
  match r.ClusterObj with
  | none => .panics "invalid memory address or nil pointer dereference"
  | some clusterObj =>
    let clusterDefKey : NamespacedName := ⟨"", clusterObj.Spec.ClusterDefRef⟩
    .returns (r.Wrap (fun r w =>
      let out := w.getFetched cli .ClusterDefinition clusterDefKey Fetched.zero
      ({ r with ClusterDefObj := some out.2.1 }, out.1, out.2.2)) w)

/-- The method `ResourceFetcher.ClusterVer`. The key is built before `Wrap` is entered,
from `r.ClusterObj.Spec.ClusterVersionRef`. -/
def ResourceFetcher.ClusterVer {ρ : Type} (cli : Reader ρ) (r : ResourceFetcher)
    (w : ReadWorld ρ) : Step (ResourceFetcher × ReadWorld ρ) :=
  match r.ClusterObj with
  | none => .panics "invalid memory address or nil pointer dereference"
  | some clusterObj =>
    let clusterVerKey : NamespacedName := ⟨"", clusterObj.Spec.ClusterVersionRef⟩
    .returns (r.Wrap (fun r w =>
      if clusterVerKey.Name = "" then (r, none, w)
      else
        let out := w.getFetched cli .ClusterVersion clusterVerKey Fetched.zero
        ({ r with ClusterVerObj := some out.2.1 }, out.1, out.2.2)) w)

/-- The method `ResourceFetcher.ClusterComponent`. -/
def ResourceFetcher.ClusterComponent {ρ : Type} (cli : Reader ρ) (r : ResourceFetcher)
    (w : ReadWorld ρ) : Step (ResourceFetcher × ReadWorld ρ) :=
  .returns (r.Wrap (fun r w =>
    let out := cli.GetComponentSpec r.ClusterObj r.ctx.ComponentName w.state
    ({ r with ClusterComObj := out.1 }, out.2.1,
      ⟨out.2.2, w.reads ++ [(.ComponentSpec, ⟨r.ctx.Namespace, r.ctx.ComponentName⟩)]⟩)) w)

/-- The function `client.IgnoreNotFound`. -/
def IgnoreNotFound : Option Error → Option Error
  | some err => if IsNotFound err then none else some err
  | none => none

/-- The method `ResourceFetcher.Configuration`. -/
def ResourceFetcher.Configuration {ρ : Type} (cli : Reader ρ) (core : CfgCore)
    (r : ResourceFetcher) (w : ReadWorld ρ) : Step (ResourceFetcher × ReadWorld ρ) :=
  let configKey : NamespacedName :=
    ⟨r.ctx.Namespace, core.GenerateComponentConfigurationName r.ctx.ClusterName r.ctx.ComponentName⟩
  .returns (r.Wrap (fun r w =>
    let out := w.getFetched cli .Configuration configKey Fetched.zero
    match out.1 with
    | some err => (r, IgnoreNotFound (some err), out.2.2)
    | none => ({ r with ConfigurationObj := some out.2.1 }, none, out.2.2)) w)

/-- The method `ResourceFetcher.ConfigMap`. -/
def ResourceFetcher.ConfigMap {ρ : Type} (cli : Reader ρ) (core : CfgCore)
    (r : ResourceFetcher) (configSpec : String) (w : ReadWorld ρ) :
    Step (ResourceFetcher × ReadWorld ρ) :=
  let cmKey : NamespacedName :=
    ⟨r.ctx.Namespace, core.GetComponentCfgName r.ctx.ClusterName r.ctx.ComponentName configSpec⟩
  .returns (r.Wrap (fun r w =>
    let out := w.getFetched cli .ConfigMap cmKey Fetched.zero
    ({ r with ConfigMapObj := some out.2.1 }, out.1, out.2.2)) w)

/-- The method `ResourceFetcher.ConfigConstraints`. -/
def ResourceFetcher.ConfigConstraints {ρ : Type} (cli : Reader ρ) (r : ResourceFetcher)
    (ccName : String) (w : ReadWorld ρ) : Step (ResourceFetcher × ReadWorld ρ) :=
  .returns (r.Wrap (fun r w =>
    if ccName ≠ "" then
      let out := w.getFetched cli .ConfigConstraint ⟨"", ccName⟩ Fetched.zero
      ({ r with ConfigConstraintObj := some out.2.1 }, out.1, out.2.2)
    else (r, none, w)) w)

/-- The method `ResourceFetcher.Complete`. -/
def ResourceFetcher.Complete (r : ResourceFetcher) : Option Error :=
  r.ctx.Err

/-- A reader over an empty cluster: every `Get` answers `NotFound`. -/
def emptyReader : Reader Unit where
  GetCluster key into s := (some (.status .NotFound (key.Name ++ " not found")), into, s)
  GetFetched _ key into s := (some (.status .NotFound (key.Name ++ " not found")), into, s)
  GetComponentSpec _ name s := (none, some (.text ("component " ++ name ++ " not found")), s)

/-- Name functions for the examples. -/
def demoCfgCore : CfgCore where
  GenerateComponentConfigurationName clusterName componentName :=
    clusterName ++ "-" ++ componentName
  GetComponentCfgName clusterName componentName configSpec :=
    clusterName ++ "-" ++ componentName ++ "-" ++ configSpec

/-- A context that already records an error, as a fetcher sharing it left it. -/
def failedCtx : ResourceCtx :=
  ⟨some (.text "connection refused"), "default", "mycluster", "mysql"⟩

/-! ## The replicas alignment reconciler (`rsm2`)

Only the test of the reconciler is among the sources; the reconciler itself is modelled
from the spec (data model of instance templates and pod management policy, and the
algorithm of the component design "Replica Alignment Reconciler"). -/

/-- Modelled from the spec: the pod management policy of the workload, missing with the
workload types. `OrderedReady` is the default. -/
inductive PodManagementPolicy where
  | OrderedReady
  | Parallel
  deriving DecidableEq, Repr

/-- Modelled from the spec: an instance template, missing with the workload types:
"either (a) an explicit unit: a literal name, or (b) a generated group: a name prefix plus
a replica count". -/
inductive InstanceTemplate where
  | explicit (Name : String)
  | generated (GenerateName : String) (Replicas : Nat)
  deriving DecidableEq, Repr

/-- Modelled from the spec: the workload object (the root of the tree), missing with the
workload types: its name, the total replica count, the policy and the instance templates. -/
structure ReplicatedStateMachine where
  Namespace : String
  Name : String
  Replicas : Nat
  PodManagementPolicy : PodManagementPolicy
  Instances : List InstanceTemplate
  deriving DecidableEq, Repr

/-- A replica unit of the tree, as built by `builder.NewPodBuilder(namespace, name)`. -/
structure Pod where
  Namespace : String
  Name : String
  deriving DecidableEq, Repr

/-- Modelled from the spec: the object tree of package `kubebuilderx`, missing from the
sources: "one root workload object plus its current set of child replica-unit objects",
listed in insertion order. -/
structure ObjectTree where
  Root : ReplicatedStateMachine
  Pods : List Pod
  deriving DecidableEq, Repr

/-- Names of the pods of a tree, what the test collects from `newTree.List(&corev1.Pod{})`. -/
def ObjectTree.podNames (tree : ObjectTree) : List String :=
  tree.Pods.map (fun p => p.Name)

/-- Modelled from the spec: the name of ordinal `i` of a group, `group-i`. -/
def ordinalName (group : String) (i : Nat) : String :=
  group ++ "-" ++ toString i

/-- Modelled from the spec: the names one template claims: "a generated group ... expanding
to `prefix-0 .. prefix-(count-1)`", or the literal name. -/
def InstanceTemplate.names : InstanceTemplate → List String
  | .explicit n => [n]
  | .generated g k => (List.range k).map (ordinalName g)

/-- Modelled from the spec: the names claimed by the explicit and generated templates, in
template order. -/
def claimedNames (rsm : ReplicatedStateMachine) : List String :=
  (rsm.Instances.map InstanceTemplate.names).flatten

/-- Modelled from the spec: the units of the common template: "fill remaining ordinals
(0..totalReplicas-1, skipping names already claimed by explicit/generated templates) using
the common template, until the desired set's size equals the declared total replica
count". -/
def commonNames (rsm : ReplicatedStateMachine) (claimed : List String) : List String :=
  (((List.range rsm.Replicas).map (ordinalName rsm.Name)).filter
    (fun n => decide (n ∉ claimed))).take (rsm.Replicas - claimed.length)

/-- Modelled from the spec: step 1 of the alignment algorithm, the desired name set:
"Reject (error) if templates collide on a name or if the declared total is smaller than the
sum of explicitly named units." -/
def desiredNames (rsm : ReplicatedStateMachine) : Except String (List String) :=
  let claimed := claimedNames rsm
  if ¬ claimed.Nodup then .error "instance templates collide on a name"
  else if rsm.Replicas < claimed.length then
    .error "replicas is smaller than the units named by the instance templates"
  else .ok (claimed ++ commonNames rsm claimed)

/-- Modelled from the spec: the ordinal written by the digits at the end of a name (most
significant first). -/
def digitsValue (cs : List Char) : Nat :=
  cs.foldl (fun acc c => acc * 10 + (c.toNat - 48)) 0

/-- Modelled from the spec: the group and the ordinal of a unit name: `foo-3` is ordinal 3
of group `foo`; a name without a `-ordinal` ending is a group of its own without ordinal. -/
def groupAndOrdinal (name : String) : String × Option Nat :=
  let rev := name.toList.reverse
  let digits := rev.takeWhile Char.isDigit
  match rev.dropWhile Char.isDigit with
  | '-' :: rest =>
    if digits.isEmpty then (name, none)
    else (String.mk rest.reverse, some (digitsValue digits.reverse))
  | _ => (name, none)

/-- Modelled from the spec: the order of group names, strict lexicographic order of their
characters by code point. -/
def charsBefore : List Char → List Char → Bool
  | [], [] => false
  | [], _ :: _ => true
  | _ :: _, [] => false
  | a :: as, b :: bs =>
    if a.toNat < b.toNat then true
    else if a.toNat = b.toNat then charsBefore as bs
    else false

/-- Modelled from the spec: ascending order of unit names, by group, then by ordinal within
the group. -/
def nameBefore (a b : String) : Bool :=
  let x := groupAndOrdinal a
  let y := groupAndOrdinal b
  if x.1 = y.1 then
    match x.2, y.2 with
    | none, _ => true
    | some _, none => false
    | some i, some j => decide (i ≤ j)
  else charsBefore x.1.toList y.1.toList

/-- Modelled from the spec: insertion of a name in a list in ascending order. -/
def insertByName (a : String) : List String → List String
  | [] => [a]
  | b :: rest => if nameBefore a b then a :: b :: rest else b :: insertByName a rest

/-- Modelled from the spec: the names in ascending order; the groups are contiguous runs,
each in ordinal order. -/
def sortNames (names : List String) : List String :=
  names.foldr insertByName []

/-- Modelled from the spec: step 3 of the alignment algorithm under `OrderedReady`. The
words of the spec that are followed: "convergence makes only the single next legal move per
pass"; units are "brought up/torn down one at a time in ascending/descending ordinal
order"; "create the lowest-ordinal missing member of a group only if all lower ordinals in
that group already exist". The move of a pass is the creation of the first missing desired
name in ascending order; when nothing is missing, it is the deletion of the last extra name
in ascending order. The spec leaves open which group moves first. The test of the
reconciler fixes it on its input: from the current pods `foo-0` and `bar-1` one pass must
give three pods with `bar-0` among them, so `bar-0` is created before `hello` and `foo-1`;
ascending order of the group names gives that. -/
def orderedReadyMove (desired current : List String) (ns : String) (pods : List Pod) :
    List Pod :=
  match (sortNames desired).filter (fun n => decide (n ∉ current)) with
  | n :: _ => pods ++ [⟨ns, n⟩]
  | [] =>
    match ((sortNames current).filter (fun n => decide (n ∉ desired))).reverse with
    | n :: _ => pods.filter (fun p => p.Name != n)
    | [] => pods

/-- Modelled from the spec: step 3 of the alignment algorithm under `Parallel`: "emit
creation for every name in toCreate and deletion for every name in toDelete in the same
pass"; the units present in both sets are left untouched. -/
def parallelMove (desired current : List String) (ns : String) (pods : List Pod) :
    List Pod :=
  pods.filter (fun p => decide (p.Name ∈ desired)) ++
    ((desired.filter (fun n => decide (n ∉ current))).map (fun n => ⟨ns, n⟩))

/-- Modelled from the spec: the method `Reconcile` of the replicas alignment reconciler,
missing from the sources: resolve the desired names, diff them against the current units,
apply the convergence of the active policy, and "return a new tree whose child set is the
current set plus creations minus deletions for this pass". -/
def ReplicasAlignmentReconciler.Reconcile (tree : ObjectTree) : Except String ObjectTree :=
  match desiredNames tree.Root with
  | .error e => .error e
  | .ok desired =>
    let current := tree.podNames
    match tree.Root.PodManagementPolicy with
    | .Parallel =>
      .ok { tree with Pods := parallelMove desired current tree.Root.Namespace tree.Pods }
    | .OrderedReady =>
      .ok { tree with Pods := orderedReadyMove desired current tree.Root.Namespace tree.Pods }

/-- The workload of the test: 7 replicas, the explicit instance `hello` and the generated
group `foo` of 2. The name `bar` of the workload is the one of the pods the test expects
from the common template (`bar-0`); the revision stamps that the test lets the revision
reconciler put on the pods do not enter the names and are left out. -/
def testRsm (policy : PodManagementPolicy) : ReplicatedStateMachine :=
  ⟨"foo", "bar", 7, policy, [.explicit "hello", .generated "foo" 2]⟩

/-- The tree of the test: the workload and the current pods `foo-0` and `bar-1`. -/
def testTree (policy : PodManagementPolicy) : ObjectTree :=
  ⟨testRsm policy, [⟨"foo", "foo-0"⟩, ⟨"foo", "bar-1"⟩]⟩

/-! ## Inputs of the examples -/

/-- A Delete node for a pod that carries the designated finalizer. -/
def demoDeleteVertex : ObjectVertex :=
  ⟨demoObject "x" "v1" "" ["rsm.workloads.kubeblocks.io/finalizer"], none, some .DELETE⟩

/-- An in-memory cluster that holds the pod of `demoDeleteVertex`. -/
def demoDeleteStore : Store :=
  Function.update Store.empty demoDeleteVertex.Obj.key (some demoDeleteVertex.Obj)

theorem GetConfigurationItem.loop_some (name : String) :
    ∀ (l : List ConfigurationItemDetail) (k i : Nat),
      GetConfigurationItem.loop name l k = some i →
      k ≤ i ∧ ∃ item, l[i - k]? = some item ∧ item.Name = name ∧
        ∀ j, j < i - k → ∀ other, l[j]? = some other → other.Name ≠ name := by
  intro l
  induction l with
  | nil => intro k i h; simp [GetConfigurationItem.loop] at h
  | cons x xs ih =>
    intro k i h
    unfold GetConfigurationItem.loop at h
    by_cases hx : x.Name = name
    · rw [if_pos hx] at h
      have hik : k = i := by simpa using h
      subst hik
      refine ⟨le_refl _, x, by simp, hx, ?_⟩
      intro j hj
      simp at hj
    · rw [if_neg hx] at h
      obtain ⟨hle, item, hget, hname, hbefore⟩ := ih (k + 1) i h
      have hsplit : i - k = (i - (k + 1)) + 1 := by omega
      refine ⟨by omega, item, ?_, hname, ?_⟩
      · rw [hsplit]; simpa using hget
      · intro j hj other hother
        cases j with
        | zero =>
          have : other = x := by simpa using hother.symm
          rw [this]; exact hx
        | succ j =>
          have hj2 : j < i - (k + 1) := by omega
          exact hbefore j hj2 other (by simpa using hother)

theorem GetConfigurationItem.loop_none (name : String) :
    ∀ (l : List ConfigurationItemDetail) (k : Nat),
      GetConfigurationItem.loop name l k = none ↔ ∀ item ∈ l, item.Name ≠ name := by
  intro l
  induction l with
  | nil => intro k; simp [GetConfigurationItem.loop]
  | cons x xs ih =>
    intro k
    unfold GetConfigurationItem.loop
    by_cases hx : x.Name = name
    · simp [hx]
    · simp [hx, ih (k + 1)]

/-- C10: `GetConfigurationItem` returns the first element of `ConfigItemDetails` (lowest
index) whose `Name` equals the given name, and nil exactly when no element has that name;
`GetConfigSpec` returns the `ConfigSpec` of that element, or nil when there is none. -/
theorem GetConfigurationItem_first_match (configuration : ConfigurationSpec) (name : String) :
    (∀ i, configuration.GetConfigurationItem name = some i →
      ∃ item, configuration.ConfigItemDetails[i]? = some item ∧ item.Name = name ∧
        (∀ j, j < i → ∀ other, configuration.ConfigItemDetails[j]? = some other →
          other.Name ≠ name) ∧
        configuration.GetConfigSpec name = item.ConfigSpec) ∧
    (configuration.GetConfigurationItem name = none ↔
      ∀ item ∈ configuration.ConfigItemDetails, item.Name ≠ name) ∧
    (configuration.GetConfigurationItem name = none →
      configuration.GetConfigSpec name = none) := by
  refine ⟨?_, ?_, ?_⟩
  · intro i h
    obtain ⟨_, item, hget, hname, hbefore⟩ :=
      GetConfigurationItem.loop_some name configuration.ConfigItemDetails 0 i h
    simp only [Nat.sub_zero] at hget hbefore
    refine ⟨item, hget, hname, hbefore, ?_⟩
    simp [ConfigurationSpec.GetConfigSpec, h, hget]
  · exact GetConfigurationItem.loop_none name configuration.ConfigItemDetails 0
  · intro h
    simp [ConfigurationSpec.GetConfigSpec, h]

/-! ## The dispatch of `plan_builder.go` -/

/-- C1: for an intent node whose action is Create, `createObject` (reached through
`rsmWalkFunc`) issues one client `Create`; it returns nil if the client returned nil or an
`AlreadyExists` error, and otherwise exactly the error the client returned. -/
theorem createObject_result {σ : Type} (b : PlanBuilder σ) (vertex : ObjectVertex)
    (w : World σ) (hAction : vertex.Action = some .CREATE) :
    (b.rsmWalkFunc (.object vertex) w).err = (b.createObject vertex w).err ∧
    (b.createObject vertex w).world.calls = w.calls ++
      [⟨.Create, vertex.Obj, none, b.helpers.ClientOption vertex,
        (b.cli.Create vertex.Obj (b.helpers.ClientOption vertex) w.state).err⟩] ∧
    (((b.cli.Create vertex.Obj (b.helpers.ClientOption vertex) w.state).err = none ∨
        ∃ e, (b.cli.Create vertex.Obj (b.helpers.ClientOption vertex) w.state).err = some e ∧
          IsAlreadyExists e = true) →
      (b.createObject vertex w).err = none) ∧
    (∀ e, (b.cli.Create vertex.Obj (b.helpers.ClientOption vertex) w.state).err = some e →
      IsAlreadyExists e = false → (b.createObject vertex w).err = some e) := by
  refine ⟨?_, ?_, ?_, ?_⟩
  · simp [PlanBuilder.rsmWalkFunc, hAction, Outcome.toWalk]
  · unfold PlanBuilder.createObject World.create
    cases h : (b.cli.Create vertex.Obj (b.helpers.ClientOption vertex) w.state).err with
    | none => simp [h]
    | some e => cases he : IsAlreadyExists e <;> simp [h, he]
  · unfold PlanBuilder.createObject World.create
    rintro (h | ⟨e, h, he⟩)
    · simp [h]
    · simp [h, he]
  · intro e h he
    unfold PlanBuilder.createObject World.create
    simp [h, he]

/-- Witness of C1: a Create node for a pod that already exists in the in-memory cluster. -/
theorem createObject_result_witness :
    ((memBuilder demoHelpers).createObject
      ⟨demoObject "x" "v1" "" [], none, some .CREATE⟩
      (World.start (Function.update Store.empty (demoObject "x" "v1" "" []).key
        (some (demoObject "x" "v0" "" []))))).err = none :=
  (createObject_result (memBuilder demoHelpers)
    ⟨demoObject "x" "v1" "" [], none, some .CREATE⟩
    (World.start (Function.update Store.empty (demoObject "x" "v1" "" []).key
        (some (demoObject "x" "v0" "" [])))) rfl).2.2.1
    (Or.inr ⟨alreadyExists (demoObject "x" "v1" "" []), by decide, by decide⟩)

/-- C2: for an intent node whose action is Update or Patch, the dispatch issues the one
corresponding client call (`Update`, or `Patch` with the merge base taken from the original
object of the node); it returns nil if the client returned nil or a `NotFound` error, and
otherwise exactly the error of the client. -/
theorem rsmWalkFunc_update_patch_result {σ : Type} (b : PlanBuilder σ)
    (vertex : ObjectVertex) (w : World σ)
    (hAction : vertex.Action = some .UPDATE ∨ vertex.Action = some .PATCH) :
    ∃ (reply : Reply σ) (call : CallRecord),
      ((vertex.Action = some .UPDATE ∧
          reply = b.cli.Update vertex.Obj (b.helpers.ClientOption vertex) w.state ∧
          call = ⟨.Update, vertex.Obj, none, b.helpers.ClientOption vertex, reply.err⟩) ∨
        (vertex.Action = some .PATCH ∧
          reply = b.cli.Patch vertex.Obj vertex.OriObj (b.helpers.ClientOption vertex) w.state ∧
          call = ⟨.Patch, vertex.Obj, vertex.OriObj, b.helpers.ClientOption vertex,
            reply.err⟩)) ∧
      (b.rsmWalkFunc (.object vertex) w).world.calls = w.calls ++ [call] ∧
      (b.rsmWalkFunc (.object vertex) w).world.state = reply.state ∧
      ((reply.err = none ∨ ∃ e, reply.err = some e ∧ IsNotFound e = true) →
        (b.rsmWalkFunc (.object vertex) w).err = none) ∧
      (∀ e, reply.err = some e → IsNotFound e = false →
        (b.rsmWalkFunc (.object vertex) w).err = some e) := by
  rcases hAction with hA | hA
  · refine ⟨b.cli.Update vertex.Obj (b.helpers.ClientOption vertex) w.state, _,
      Or.inl ⟨hA, rfl, rfl⟩, ?_, ?_, ?_, ?_⟩
    all_goals
      simp only [PlanBuilder.rsmWalkFunc, hA, Outcome.toWalk, PlanBuilder.updateObject,
        World.update]
    · cases h : (b.cli.Update vertex.Obj (b.helpers.ClientOption vertex) w.state).err with
      | none => simp [h]
      | some e => cases he : IsNotFound e <;> simp [h, he]
    · cases h : (b.cli.Update vertex.Obj (b.helpers.ClientOption vertex) w.state).err with
      | none => simp [h]
      | some e => cases he : IsNotFound e <;> simp [h, he]
    · rintro (h | ⟨e, h, he⟩)
      · simp [h]
      · simp [h, he]
    · intro e h he
      simp [h, he]
  · refine ⟨b.cli.Patch vertex.Obj vertex.OriObj (b.helpers.ClientOption vertex) w.state, _,
      Or.inr ⟨hA, rfl, rfl⟩, ?_, ?_, ?_, ?_⟩
    all_goals
      simp only [PlanBuilder.rsmWalkFunc, hA, Outcome.toWalk, PlanBuilder.patchObject,
        World.patch]
    · cases h : (b.cli.Patch vertex.Obj vertex.OriObj (b.helpers.ClientOption vertex)
        w.state).err with
      | none => simp [h]
      | some e => cases he : IsNotFound e <;> simp [h, he]
    · cases h : (b.cli.Patch vertex.Obj vertex.OriObj (b.helpers.ClientOption vertex)
        w.state).err with
      | none => simp [h]
      | some e => cases he : IsNotFound e <;> simp [h, he]
    · rintro (h | ⟨e, h, he⟩)
      · simp [h]
      · simp [h, he]
    · intro e h he
      simp [h, he]

/-- Witness of C2: an Update node for a pod that is absent from the in-memory cluster. -/
theorem rsmWalkFunc_update_patch_result_witness :
    ((⟨demoObject "x" "v1" "" [], none, some .UPDATE⟩ : ObjectVertex).Action = some .UPDATE ∨
      (⟨demoObject "x" "v1" "" [], none, some .UPDATE⟩ : ObjectVertex).Action = some .PATCH) ∧
    ∃ (reply : Reply Store) (call : CallRecord),
      ((memBuilder demoHelpers).rsmWalkFunc
        (.object ⟨demoObject "x" "v1" "" [], none, some .UPDATE⟩)
        (World.start Store.empty)).world.calls = (World.start Store.empty).calls ++ [call] ∧
      ((reply.err = none ∨ ∃ e, reply.err = some e ∧ IsNotFound e = true) →
        ((memBuilder demoHelpers).rsmWalkFunc
          (.object ⟨demoObject "x" "v1" "" [], none, some .UPDATE⟩)
          (World.start Store.empty)).err = none) :=
  ⟨Or.inl rfl,
    (rsmWalkFunc_update_patch_result (memBuilder demoHelpers)
      ⟨demoObject "x" "v1" "" [], none, some .UPDATE⟩ (World.start Store.empty)
      (Or.inl rfl)).imp
      (fun _ h => h.imp (fun _ h2 => ⟨h2.2.1, h2.2.2.2.1⟩))⟩

/-- The method `statusObject` returns whatever the client returned, nil or not. -/
theorem statusObject_err {σ : Type} (b : PlanBuilder σ) (vertex : ObjectVertex)
    (w : World σ) :
    (b.statusObject vertex w).err =
      (b.cli.StatusUpdate vertex.Obj (b.helpers.ClientOption vertex) w.state).err := by
  unfold PlanBuilder.statusObject World.statusUpdate
  cases h : (b.cli.StatusUpdate vertex.Obj (b.helpers.ClientOption vertex) w.state).err <;>
    simp [h]

/-- C3, evaluated on the code: a StatusUpdate node for a pod that is absent from the
in-memory cluster. The status update of the client answers `NotFound`, and the dispatch
returns that error instead of nil. -/
theorem rsmWalkFunc_status_notFound_is_returned :
    (memClient.StatusUpdate (demoObject "x" "v1" "ready" []) "in-control-context"
      Store.empty).err = some (notFound (demoObject "x" "v1" "ready" [])) ∧
    IsNotFound (notFound (demoObject "x" "v1" "ready" [])) = true ∧
    ((memBuilder demoHelpers).rsmWalkFunc
      (.object ⟨demoObject "x" "v1" "ready" [], none, some .STATUS⟩)
      (World.start Store.empty)).err = some (notFound (demoObject "x" "v1" "ready" [])) := by
  decide

/-- C8: for an intent node whose action is nil, `rsmWalkFunc` returns an error and issues
no operation against the cluster client: the call log and the cluster state are as
before, and so is the vertex. -/
theorem rsmWalkFunc_nil_action {σ : Type} (b : PlanBuilder σ) (vertex : ObjectVertex)
    (w : World σ) (hAction : vertex.Action = none) :
    (b.rsmWalkFunc (.object vertex) w).err = some (.text "vertex action can\x27t be nil") ∧
    (b.rsmWalkFunc (.object vertex) w).world.calls = w.calls ∧
    (b.rsmWalkFunc (.object vertex) w).world.state = w.state ∧
    (b.rsmWalkFunc (.object vertex) w).vertex = .object vertex := by
  simp [PlanBuilder.rsmWalkFunc, hAction]

/-- Witness of C8: a vertex without action, walked over the in-memory cluster. -/
theorem rsmWalkFunc_nil_action_witness :
    (⟨demoObject "x" "v1" "" [], none, none⟩ : ObjectVertex).Action = none ∧
    ((memBuilder demoHelpers).rsmWalkFunc (.object ⟨demoObject "x" "v1" "" [], none, none⟩)
      (World.start Store.empty)).err ≠ none ∧
    ((memBuilder demoHelpers).rsmWalkFunc (.object ⟨demoObject "x" "v1" "" [], none, none⟩)
      (World.start Store.empty)).world.calls = [] :=
  ⟨rfl,
    by
      rw [(rsmWalkFunc_nil_action (memBuilder demoHelpers) ⟨demoObject "x" "v1" "" [], none, none⟩
        (World.start Store.empty) rfl).1]
      simp,
    (rsmWalkFunc_nil_action (memBuilder demoHelpers) ⟨demoObject "x" "v1" "" [], none, none⟩
      (World.start Store.empty) rfl).2.1⟩

/-- The function `RemoveFinalizer` reports a change exactly when the finalizer was present. -/
theorem RemoveFinalizer_changed (o : Object) (finalizer : String) :
    (RemoveFinalizer o finalizer).2 = true ↔ finalizer ∈ o.finalizers := by
  unfold RemoveFinalizer
  simp only [bne_iff_ne, ne_eq]
  constructor
  · intro h
    by_contra hmem
    apply h
    congr 1
    symm
    rw [List.filter_eq_self]
    intro x hx
    simp only [bne_iff_ne, ne_eq]
    rintro rfl
    exact hmem hx
  · intro hmem h
    have hlt : (o.finalizers.filter (fun x => x != finalizer)).length < o.finalizers.length :=
      List.length_filter_lt_length_iff_exists.mpr ⟨finalizer, hmem, by simp⟩
    omega

/-- After `RemoveFinalizer` the finalizer is gone from the object. -/
theorem RemoveFinalizer_absent (o : Object) (finalizer : String) :
    finalizer ∉ (RemoveFinalizer o finalizer).1.finalizers := by
  simp [RemoveFinalizer]

/-- Without the finalizer on the object, `RemoveFinalizer` leaves the object as it is. -/
theorem RemoveFinalizer_unchanged (o : Object) (finalizer : String)
    (h : finalizer ∉ o.finalizers) : (RemoveFinalizer o finalizer).1 = o := by
  unfold RemoveFinalizer
  have : o.finalizers.filter (fun x => x != finalizer) = o.finalizers := by
    rw [List.filter_eq_self]
    intro x hx
    simp only [bne_iff_ne, ne_eq]
    rintro rfl
    exact h hx
  simp [this]

/-- The delete half of `deleteObject`, in full: the outcome when the object is marked for
deletion and when it is not. -/
theorem deleteUnlessDeleting_outcome {σ : Type} (b : PlanBuilder σ) (vertex : ObjectVertex)
    (w : World σ) :
    (b.helpers.IsObjectDeleting vertex.Obj = true →
      (b.deleteUnlessDeleting vertex w).err = none ∧
      (b.deleteUnlessDeleting vertex w).vertex = vertex ∧
      (b.deleteUnlessDeleting vertex w).world.state = w.state ∧
      (b.deleteUnlessDeleting vertex w).world.calls = w.calls) ∧
    (b.helpers.IsObjectDeleting vertex.Obj = false →
      (b.deleteUnlessDeleting vertex w).err =
        IgnoreNotFound (b.cli.Delete vertex.Obj (b.helpers.ClientOption vertex) w.state).err ∧
      (b.deleteUnlessDeleting vertex w).vertex =
        { vertex with
          Obj := (b.cli.Delete vertex.Obj (b.helpers.ClientOption vertex) w.state).obj } ∧
      (b.deleteUnlessDeleting vertex w).world.state =
        (b.cli.Delete vertex.Obj (b.helpers.ClientOption vertex) w.state).state ∧
      (b.deleteUnlessDeleting vertex w).world.calls = w.calls ++
        [⟨.Delete, vertex.Obj, none, b.helpers.ClientOption vertex,
          (b.cli.Delete vertex.Obj (b.helpers.ClientOption vertex) w.state).err⟩]) := by
  unfold PlanBuilder.deleteUnlessDeleting World.delete
  constructor
  · intro hd
    simp [hd]
  · intro hd
    cases h : (b.cli.Delete vertex.Obj (b.helpers.ClientOption vertex) w.state).err with
    | none => simp [hd, h, IgnoreNotFound]
    | some e => cases he : IsNotFound e <;> simp [hd, h, he, IgnoreNotFound]

/-- With the finalizer on the object and an update that did not fail (nil or `NotFound`),
`deleteObject` goes on with the delete half, on the object as the update left it. -/
theorem deleteObject_after_update {σ : Type} (b : PlanBuilder σ) (vertex : ObjectVertex)
    (w : World σ)
    (hmem : b.helpers.GetFinalizer vertex.Obj ∈ vertex.Obj.finalizers)
    (hupd : ∀ e, (b.cli.Update (RemoveFinalizer vertex.Obj (b.helpers.GetFinalizer vertex.Obj)).1
      (b.helpers.ClientOption { vertex with
        Obj := (RemoveFinalizer vertex.Obj (b.helpers.GetFinalizer vertex.Obj)).1 })
      w.state).err = some e → IsNotFound e = true) :
    b.deleteObject vertex w = b.deleteUnlessDeleting
      { vertex with Obj := (b.cli.Update (RemoveFinalizer vertex.Obj
        (b.helpers.GetFinalizer vertex.Obj)).1
        (b.helpers.ClientOption { vertex with Obj := (RemoveFinalizer vertex.Obj
          (b.helpers.GetFinalizer vertex.Obj)).1 }) w.state).obj }
      (w.update b.cli (RemoveFinalizer vertex.Obj (b.helpers.GetFinalizer vertex.Obj)).1
        (b.helpers.ClientOption { vertex with Obj := (RemoveFinalizer vertex.Obj
          (b.helpers.GetFinalizer vertex.Obj)).1 })).world := by
  have hch := (RemoveFinalizer_changed vertex.Obj (b.helpers.GetFinalizer vertex.Obj)).mpr hmem
  cases hu : (b.cli.Update (RemoveFinalizer vertex.Obj (b.helpers.GetFinalizer vertex.Obj)).1
      (b.helpers.ClientOption { vertex with
        Obj := (RemoveFinalizer vertex.Obj (b.helpers.GetFinalizer vertex.Obj)).1 })
      w.state).err with
  | none => simp only [PlanBuilder.deleteObject, hch, if_true, World.update, hu]
  | some e =>
    have he := hupd e hu
    simp only [PlanBuilder.deleteObject, hch, if_true, World.update, hu, he]
    rfl

/-- With the finalizer on the object and an update that failed with an error other than
`NotFound`, `deleteObject` returns that error after the update. -/
theorem deleteObject_aborted {σ : Type} (b : PlanBuilder σ) (vertex : ObjectVertex)
    (w : World σ) (e : Error)
    (hmem : b.helpers.GetFinalizer vertex.Obj ∈ vertex.Obj.finalizers)
    (hu : (b.cli.Update (RemoveFinalizer vertex.Obj (b.helpers.GetFinalizer vertex.Obj)).1
      (b.helpers.ClientOption { vertex with
        Obj := (RemoveFinalizer vertex.Obj (b.helpers.GetFinalizer vertex.Obj)).1 })
      w.state).err = some e)
    (he : IsNotFound e = false) :
    b.deleteObject vertex w = ⟨some e,
      { vertex with Obj := (b.cli.Update (RemoveFinalizer vertex.Obj
        (b.helpers.GetFinalizer vertex.Obj)).1
        (b.helpers.ClientOption { vertex with Obj := (RemoveFinalizer vertex.Obj
          (b.helpers.GetFinalizer vertex.Obj)).1 }) w.state).obj },
      (w.update b.cli (RemoveFinalizer vertex.Obj (b.helpers.GetFinalizer vertex.Obj)).1
        (b.helpers.ClientOption { vertex with Obj := (RemoveFinalizer vertex.Obj
          (b.helpers.GetFinalizer vertex.Obj)).1 })).world⟩ := by
  have hch := (RemoveFinalizer_changed vertex.Obj (b.helpers.GetFinalizer vertex.Obj)).mpr hmem
  simp only [PlanBuilder.deleteObject, hch, if_true, World.update, hu, he]
  rfl

/-- Without the finalizer on the object, `deleteObject` is its delete half. -/
theorem deleteObject_without_finalizer {σ : Type} (b : PlanBuilder σ) (vertex : ObjectVertex)
    (w : World σ)
    (hmem : b.helpers.GetFinalizer vertex.Obj ∉ vertex.Obj.finalizers) :
    b.deleteObject vertex w = b.deleteUnlessDeleting vertex w := by
  have hch : (RemoveFinalizer vertex.Obj (b.helpers.GetFinalizer vertex.Obj)).2 = false := by
    have := (RemoveFinalizer_changed vertex.Obj (b.helpers.GetFinalizer vertex.Obj)).not.mpr hmem
    simpa using this
  have hsame := RemoveFinalizer_unchanged vertex.Obj (b.helpers.GetFinalizer vertex.Obj) hmem
  simp only [PlanBuilder.deleteObject, hch, hsame]
  rfl

/-- C4: for an intent node whose action is Delete, `deleteObject` issues a client `Update`
exactly when the designated finalizer was on the object, with the finalizer removed from
the object passed; then, unless that `Update` failed with an error other than `NotFound`
(that error is returned and no `Delete` is issued), it issues a client `Delete`, for the
object as the update left it and in the cluster state the update left, exactly when that
object is not marked for deletion; the result is the first error other than `NotFound`
among the issued calls, and nil when there is none; the cluster state and the object of
the vertex are the ones the last issued call left. -/
theorem deleteObject_calls {σ : Type} (b : PlanBuilder σ) (vertex : ObjectVertex)
    (w : World σ) (hAction : vertex.Action = some .DELETE) :
    ∃ (issued : List CallRecord) (stripped : ObjectVertex) (upd : Reply σ)
      (current : ObjectVertex) (del : Reply σ),
      stripped = { vertex with Obj := (RemoveFinalizer vertex.Obj
        (b.helpers.GetFinalizer vertex.Obj)).1 } ∧
      upd = b.cli.Update stripped.Obj (b.helpers.ClientOption stripped) w.state ∧
      current = (if b.helpers.GetFinalizer vertex.Obj ∈ vertex.Obj.finalizers then
        { stripped with Obj := upd.obj } else vertex) ∧
      del = b.cli.Delete current.Obj (b.helpers.ClientOption current)
        (if b.helpers.GetFinalizer vertex.Obj ∈ vertex.Obj.finalizers then upd.state
          else w.state) ∧
      (b.rsmWalkFunc (.object vertex) w).err = (b.deleteObject vertex w).err ∧
      (b.deleteObject vertex w).world.calls = w.calls ++ issued ∧
      ((∃ c ∈ issued, c.verb = .Update) ↔
        b.helpers.GetFinalizer vertex.Obj ∈ vertex.Obj.finalizers) ∧
      (∀ c ∈ issued, c.verb = .Update →
        c = ⟨.Update, stripped.Obj, none, b.helpers.ClientOption stripped, upd.err⟩ ∧
        b.helpers.GetFinalizer vertex.Obj ∉ c.obj.finalizers) ∧
      ((∃ c ∈ issued, c.verb = .Delete) ↔
        (¬ (b.helpers.GetFinalizer vertex.Obj ∈ vertex.Obj.finalizers ∧
            ∃ e, upd.err = some e ∧ IsNotFound e = false) ∧
          b.helpers.IsObjectDeleting current.Obj = false)) ∧
      (∀ c ∈ issued, c.verb = .Delete →
        c = ⟨.Delete, current.Obj, none, b.helpers.ClientOption current, del.err⟩) ∧
      (issued.map (fun c => c.verb) = [] ∨ issued.map (fun c => c.verb) = [.Update] ∨
        issued.map (fun c => c.verb) = [.Delete] ∨
        issued.map (fun c => c.verb) = [.Update, .Delete]) ∧
      (b.deleteObject vertex w).err =
        (issued.filterMap (fun c => c.result.filter (fun e => !IsNotFound e))).head? ∧
      (∀ e, b.helpers.GetFinalizer vertex.Obj ∈ vertex.Obj.finalizers → upd.err = some e →
        IsNotFound e = false →
        (b.deleteObject vertex w).err = some e ∧
        (b.deleteObject vertex w).world.state = upd.state ∧
        (b.deleteObject vertex w).vertex = current) ∧
      (¬ (b.helpers.GetFinalizer vertex.Obj ∈ vertex.Obj.finalizers ∧
          ∃ e, upd.err = some e ∧ IsNotFound e = false) →
        b.helpers.IsObjectDeleting current.Obj = true →
        (b.deleteObject vertex w).err = none ∧
        (b.deleteObject vertex w).world.state =
          (if b.helpers.GetFinalizer vertex.Obj ∈ vertex.Obj.finalizers then upd.state
            else w.state) ∧
        (b.deleteObject vertex w).vertex = current) ∧
      (¬ (b.helpers.GetFinalizer vertex.Obj ∈ vertex.Obj.finalizers ∧
          ∃ e, upd.err = some e ∧ IsNotFound e = false) →
        b.helpers.IsObjectDeleting current.Obj = false →
        (b.deleteObject vertex w).err = IgnoreNotFound del.err ∧
        (b.deleteObject vertex w).world.state = del.state ∧
        (b.deleteObject vertex w).vertex = { current with Obj := del.obj }) := by
  have hwalk : (b.rsmWalkFunc (.object vertex) w).err = (b.deleteObject vertex w).err := by
    simp [PlanBuilder.rsmWalkFunc, hAction, Outcome.toWalk]
  have habs := RemoveFinalizer_absent vertex.Obj (b.helpers.GetFinalizer vertex.Obj)
  by_cases hmem : b.helpers.GetFinalizer vertex.Obj ∈ vertex.Obj.finalizers
  · by_cases hab : ∃ e, (b.cli.Update (RemoveFinalizer vertex.Obj
        (b.helpers.GetFinalizer vertex.Obj)).1
        (b.helpers.ClientOption { vertex with
          Obj := (RemoveFinalizer vertex.Obj (b.helpers.GetFinalizer vertex.Obj)).1 })
        w.state).err = some e ∧ IsNotFound e = false
    · obtain ⟨e, hu, he⟩ := hab
      have hgo := deleteObject_aborted b vertex w e hmem hu he
      refine ⟨[⟨.Update, (RemoveFinalizer vertex.Obj (b.helpers.GetFinalizer vertex.Obj)).1,
        none, b.helpers.ClientOption { vertex with Obj := (RemoveFinalizer vertex.Obj
          (b.helpers.GetFinalizer vertex.Obj)).1 }, some e⟩], _, _, _, _, rfl, rfl, rfl, rfl,
        hwalk, ?_, ?_, ?_, ?_, ?_, ?_, ?_, ?_, ?_, ?_⟩
      · rw [hgo]; simp [World.update, hu]
      · simp [hmem]
      · intro c hc _
        simp only [List.mem_singleton] at hc
        subst hc
        exact ⟨by simp [hu], habs⟩
      · simp [hmem, hu, he]
      · intro c hc hv
        simp only [List.mem_singleton] at hc
        subst hc
        cases hv
      · simp
      · rw [hgo]; simp [Option.filter, he]
      · intro e2 _ hu2 _
        rw [hu] at hu2
        cases hu2
        rw [hgo]
        simp [World.update, hmem]
      · intro hna
        exact absurd ⟨hmem, e, hu, he⟩ hna
      · intro hna
        exact absurd ⟨hmem, e, hu, he⟩ hna
    · have hupd : ∀ e, (b.cli.Update (RemoveFinalizer vertex.Obj
          (b.helpers.GetFinalizer vertex.Obj)).1
          (b.helpers.ClientOption { vertex with
            Obj := (RemoveFinalizer vertex.Obj (b.helpers.GetFinalizer vertex.Obj)).1 })
          w.state).err = some e → IsNotFound e = true := by
        intro e hu
        by_contra hne
        exact hab ⟨e, hu, by simpa using hne⟩
      have hgo := deleteObject_after_update b vertex w hmem hupd
      have hna : ¬ (b.helpers.GetFinalizer vertex.Obj ∈ vertex.Obj.finalizers ∧
          ∃ e, (b.cli.Update (RemoveFinalizer vertex.Obj
            (b.helpers.GetFinalizer vertex.Obj)).1
            (b.helpers.ClientOption { vertex with
              Obj := (RemoveFinalizer vertex.Obj (b.helpers.GetFinalizer vertex.Obj)).1 })
            w.state).err = some e ∧ IsNotFound e = false) := fun hc => hab hc.2
      have hfilter : Option.filter (fun e => !IsNotFound e) (b.cli.Update
          (RemoveFinalizer vertex.Obj (b.helpers.GetFinalizer vertex.Obj)).1
          (b.helpers.ClientOption { vertex with
            Obj := (RemoveFinalizer vertex.Obj (b.helpers.GetFinalizer vertex.Obj)).1 })
          w.state).err = none := by
        cases hu : (b.cli.Update (RemoveFinalizer vertex.Obj
          (b.helpers.GetFinalizer vertex.Obj)).1
          (b.helpers.ClientOption { vertex with
            Obj := (RemoveFinalizer vertex.Obj (b.helpers.GetFinalizer vertex.Obj)).1 })
          w.state).err with
        | none => rfl
        | some e => simp [Option.filter, hupd e hu]
      cases hd : b.helpers.IsObjectDeleting (b.cli.Update (RemoveFinalizer vertex.Obj
          (b.helpers.GetFinalizer vertex.Obj)).1
          (b.helpers.ClientOption { vertex with
            Obj := (RemoveFinalizer vertex.Obj (b.helpers.GetFinalizer vertex.Obj)).1 })
          w.state).obj with
      | true =>
        obtain ⟨o1, o2, o3, o4⟩ := (deleteUnlessDeleting_outcome b
          { vertex with Obj := (b.cli.Update (RemoveFinalizer vertex.Obj
            (b.helpers.GetFinalizer vertex.Obj)).1
            (b.helpers.ClientOption { vertex with Obj := (RemoveFinalizer vertex.Obj
              (b.helpers.GetFinalizer vertex.Obj)).1 }) w.state).obj }
          (w.update b.cli (RemoveFinalizer vertex.Obj (b.helpers.GetFinalizer vertex.Obj)).1
            (b.helpers.ClientOption { vertex with Obj := (RemoveFinalizer vertex.Obj
              (b.helpers.GetFinalizer vertex.Obj)).1 })).world).1 hd
        refine ⟨[⟨.Update, (RemoveFinalizer vertex.Obj (b.helpers.GetFinalizer vertex.Obj)).1,
          none, b.helpers.ClientOption { vertex with Obj := (RemoveFinalizer vertex.Obj
              (b.helpers.GetFinalizer vertex.Obj)).1 },
          (b.cli.Update (RemoveFinalizer vertex.Obj (b.helpers.GetFinalizer vertex.Obj)).1
              (b.helpers.ClientOption { vertex with Obj := (RemoveFinalizer vertex.Obj
              (b.helpers.GetFinalizer vertex.Obj)).1 }) w.state).err⟩], _, _, _, _, rfl, rfl, rfl,
              rfl,
          hwalk, ?_, ?_, ?_, ?_, ?_, ?_, ?_, ?_, ?_, ?_⟩
        · rw [hgo, o4]; simp [World.update]
        · simp [hmem]
        · intro c hc _
          simp only [List.mem_singleton] at hc
          subst hc
          exact ⟨rfl, habs⟩
        · simp [hmem, hd]
        · intro c hc hv
          simp only [List.mem_singleton] at hc
          subst hc
          cases hv
        · simp
        · rw [hgo, o1]; simp [hfilter]
        · intro e _ hu he
          exact absurd ⟨hmem, e, hu, he⟩ hna
        · intro _ _
          rw [hgo, o1, o2, o3]
          simp [World.update, hmem]
        · intro _ hd2
          simp only [hmem, if_true] at hd2
          rw [hd] at hd2
          cases hd2
      | false =>
        obtain ⟨o1, o2, o3, o4⟩ := (deleteUnlessDeleting_outcome b
          { vertex with Obj := (b.cli.Update (RemoveFinalizer vertex.Obj
            (b.helpers.GetFinalizer vertex.Obj)).1
            (b.helpers.ClientOption { vertex with Obj := (RemoveFinalizer vertex.Obj
              (b.helpers.GetFinalizer vertex.Obj)).1 }) w.state).obj }
          (w.update b.cli (RemoveFinalizer vertex.Obj (b.helpers.GetFinalizer vertex.Obj)).1
            (b.helpers.ClientOption { vertex with Obj := (RemoveFinalizer vertex.Obj
              (b.helpers.GetFinalizer vertex.Obj)).1 })).world).2 hd
        refine ⟨[⟨.Update, (RemoveFinalizer vertex.Obj (b.helpers.GetFinalizer vertex.Obj)).1,
          none, b.helpers.ClientOption { vertex with Obj := (RemoveFinalizer vertex.Obj
              (b.helpers.GetFinalizer vertex.Obj)).1 },
          (b.cli.Update (RemoveFinalizer vertex.Obj (b.helpers.GetFinalizer vertex.Obj)).1
              (b.helpers.ClientOption { vertex with Obj := (RemoveFinalizer vertex.Obj
              (b.helpers.GetFinalizer vertex.Obj)).1 }) w.state).err⟩,
          ⟨.Delete, (b.cli.Update (RemoveFinalizer vertex.Obj (b.helpers.GetFinalizer
              vertex.Obj)).1 (b.helpers.ClientOption { vertex with Obj := (RemoveFinalizer
              vertex.Obj (b.helpers.GetFinalizer vertex.Obj)).1 }) w.state).obj, none,
            b.helpers.ClientOption { vertex with Obj := (b.cli.Update (RemoveFinalizer vertex.Obj
                (b.helpers.GetFinalizer vertex.Obj)).1 (b.helpers.ClientOption { vertex with Obj
                := (RemoveFinalizer vertex.Obj (b.helpers.GetFinalizer vertex.Obj)).1 })
                w.state).obj },
            (b.cli.Delete (b.cli.Update (RemoveFinalizer vertex.Obj (b.helpers.GetFinalizer
                vertex.Obj)).1 (b.helpers.ClientOption { vertex with Obj := (RemoveFinalizer
                vertex.Obj (b.helpers.GetFinalizer vertex.Obj)).1 }) w.state).obj
                (b.helpers.ClientOption { vertex with Obj := (b.cli.Update (RemoveFinalizer
                vertex.Obj (b.helpers.GetFinalizer vertex.Obj)).1 (b.helpers.ClientOption { vertex
                with Obj := (RemoveFinalizer vertex.Obj (b.helpers.GetFinalizer vertex.Obj)).1 })
                w.state).obj }) (b.cli.Update (RemoveFinalizer vertex.Obj (b.helpers.GetFinalizer
                vertex.Obj)).1 (b.helpers.ClientOption { vertex with Obj := (RemoveFinalizer
                vertex.Obj (b.helpers.GetFinalizer vertex.Obj)).1 }) w.state).state).err⟩], _, _,
                _, _, rfl, rfl, rfl, rfl,
          hwalk, ?_, ?_, ?_, ?_, ?_, ?_, ?_, ?_, ?_, ?_⟩
        · rw [hgo, o4]; simp [World.update]
        · simp [hmem]
        · intro c hc hv
          simp only [List.mem_cons, List.mem_singleton, List.not_mem_nil, or_false] at hc
          rcases hc with rfl | rfl
          · exact ⟨rfl, habs⟩
          · cases hv
        · simp [hmem, hd, hab]
        · intro c hc hv
          simp only [List.mem_cons, List.mem_singleton, List.not_mem_nil, or_false] at hc
          rcases hc with rfl | rfl
          · cases hv
          · simp [hmem, World.update]
        · simp
        · rw [hgo, o1]
          simp only [List.filterMap_cons, hfilter, World.update]
          cases hdl : (b.cli.Delete (b.cli.Update (RemoveFinalizer vertex.Obj
              (b.helpers.GetFinalizer vertex.Obj)).1
              (b.helpers.ClientOption { vertex with Obj := (RemoveFinalizer vertex.Obj
                (b.helpers.GetFinalizer vertex.Obj)).1 }) w.state).obj
              (b.helpers.ClientOption { vertex with Obj := (b.cli.Update
                (RemoveFinalizer vertex.Obj (b.helpers.GetFinalizer vertex.Obj)).1
                (b.helpers.ClientOption { vertex with Obj := (RemoveFinalizer vertex.Obj
                  (b.helpers.GetFinalizer vertex.Obj)).1 }) w.state).obj })
              (b.cli.Update (RemoveFinalizer vertex.Obj
                (b.helpers.GetFinalizer vertex.Obj)).1
                (b.helpers.ClientOption { vertex with Obj := (RemoveFinalizer vertex.Obj
                  (b.helpers.GetFinalizer vertex.Obj)).1 }) w.state).state).err with
          | none => simp [IgnoreNotFound, Option.filter]
          | some e2 => cases he2 : IsNotFound e2 <;> simp [IgnoreNotFound, Option.filter, he2]
        · intro e _ hu he
          exact absurd ⟨hmem, e, hu, he⟩ hna
        · intro _ hd2
          simp only [hmem, if_true] at hd2
          rw [hd] at hd2
          cases hd2
        · intro _ _
          rw [hgo, o1, o2, o3]
          simp [World.update, hmem]
  · have hgo := deleteObject_without_finalizer b vertex w hmem
    cases hd : b.helpers.IsObjectDeleting vertex.Obj with
    | true =>
      obtain ⟨o1, o2, o3, o4⟩ := (deleteUnlessDeleting_outcome b vertex w).1 hd
      refine ⟨[], _, _, _, _, rfl, rfl, rfl, rfl, hwalk, ?_, ?_, ?_, ?_, ?_, ?_, ?_, ?_, ?_, ?_⟩
      · rw [hgo, o4]; simp
      · simp [hmem]
      · intro c hc; cases hc
      · simp [hmem, hd]
      · intro c hc; cases hc
      · simp
      · rw [hgo, o1]; simp
      · intro e hm; exact absurd hm hmem
      · intro _ _
        rw [hgo, o1, o2, o3]
        simp [hmem]
      · intro _ hd2
        simp only [hmem, if_false] at hd2
        rw [hd] at hd2
        cases hd2
    | false =>
      obtain ⟨o1, o2, o3, o4⟩ := (deleteUnlessDeleting_outcome b vertex w).2 hd
      refine ⟨[⟨.Delete, vertex.Obj, none, b.helpers.ClientOption vertex,
        (b.cli.Delete vertex.Obj (b.helpers.ClientOption vertex) w.state).err⟩], _, _, _, _,
        rfl, rfl, rfl, rfl, hwalk, ?_, ?_, ?_, ?_, ?_, ?_, ?_, ?_, ?_, ?_⟩
      · rw [hgo, o4]
      · simp [hmem]
      · intro c hc hv
        simp only [List.mem_singleton] at hc
        subst hc
        cases hv
      · simp [hmem, hd]
      · intro c hc _
        simp only [List.mem_singleton] at hc
        subst hc
        simp [hmem]
      · simp
      · rw [hgo, o1]
        cases hdl : (b.cli.Delete vertex.Obj (b.helpers.ClientOption vertex) w.state).err with
        | none => simp [IgnoreNotFound, Option.filter]
        | some e2 => cases he2 : IsNotFound e2 <;> simp [IgnoreNotFound, Option.filter, he2]
      · intro e hm; exact absurd hm hmem
      · intro _ hd2
        simp only [hmem, if_false] at hd2
        rw [hd] at hd2
        cases hd2
      · intro _ _
        rw [hgo, o1, o2, o3]
        simp [hmem]

/-- Witness of C4: a Delete node whose pod carries the finalizer and is in the cluster. -/
theorem deleteObject_calls_witness :
    demoDeleteVertex.Action = some .DELETE ∧
    ∃ issued : List CallRecord,
      ((memBuilder demoHelpers).deleteObject demoDeleteVertex
        (World.start demoDeleteStore)).world.calls = [] ++ issued ∧
      ((memBuilder demoHelpers).deleteObject demoDeleteVertex
        (World.start demoDeleteStore)).err =
        (issued.filterMap (fun c => c.result.filter (fun e => !IsNotFound e))).head? :=
  ⟨rfl,
    match deleteObject_calls (memBuilder demoHelpers) demoDeleteVertex
      (World.start demoDeleteStore) rfl with
    | ⟨issued, _, _, _, _, _, _, _, _, _, hcalls, _, _, _, _, _, herr, _⟩ =>
      ⟨issued, hcalls, herr⟩⟩

/-! ## `ResourceFetcher` -/

/-- Once an error is recorded, `Wrap` does not run the function. -/
theorem ResourceFetcher.Wrap_skips {ρ : Type} (r : ResourceFetcher)
    (fn : ResourceFetcher → ReadWorld ρ → ResourceFetcher × Option Error × ReadWorld ρ)
    (w : ReadWorld ρ) (e : Error) (h : r.ctx.Err = some e) : r.Wrap fn w = (r, w) := by
  simp [ResourceFetcher.Wrap, h]

/-- Once an error is recorded, the steps whose key does not read `ClusterObj` return with
the fetcher and the reads unchanged, and so do `ClusterDef` and `ClusterVer` when
`ClusterObj` is not nil; `Complete` returns the recorded error. -/
theorem ResourceFetcher.steps_skip_after_error {ρ : Type} (cli : Reader ρ) (core : CfgCore)
    (r : ResourceFetcher) (w : ReadWorld ρ) (e : Error) (h : r.ctx.Err = some e) :
    r.Cluster cli w = .returns (r, w) ∧
    r.ClusterComponent cli w = .returns (r, w) ∧
    r.Configuration cli core w = .returns (r, w) ∧
    (∀ configSpec, r.ConfigMap cli core configSpec w = .returns (r, w)) ∧
    (∀ ccName, r.ConfigConstraints cli ccName w = .returns (r, w)) ∧
    (r.ClusterObj ≠ none → r.ClusterDef cli w = .returns (r, w) ∧
      r.ClusterVer cli w = .returns (r, w)) ∧
    r.Complete = some e := by
  refine ⟨?_, ?_, ?_, ?_, ?_, ?_, h⟩
  · simp [ResourceFetcher.Cluster, ResourceFetcher.Wrap_skips _ _ _ e h]
  · simp [ResourceFetcher.ClusterComponent, ResourceFetcher.Wrap_skips _ _ _ e h]
  · simp [ResourceFetcher.Configuration, ResourceFetcher.Wrap_skips _ _ _ e h]
  · intro configSpec
    simp [ResourceFetcher.ConfigMap, ResourceFetcher.Wrap_skips _ _ _ e h]
  · intro ccName
    simp [ResourceFetcher.ConfigConstraints, ResourceFetcher.Wrap_skips _ _ _ e h]
  · intro hc
    cases hobj : r.ClusterObj with
    | none => exact absurd hobj hc
    | some c =>
      simp [ResourceFetcher.ClusterDef, ResourceFetcher.ClusterVer, hobj,
        ResourceFetcher.Wrap_skips _ _ _ e h]

/-- C9, evaluated on the code: a fetcher over a context that already records an error.
`Cluster` is skipped and leaves `ClusterObj` nil; the next steps of the usual chain,
`ClusterDef` and `ClusterVer`, then dereference the nil `ClusterObj` while building their
key, before `Wrap` is entered, and panic instead of completing. -/
theorem ResourceFetcher.ClusterDef_panics_after_error :
    (NewResourceFetcher failedCtx).ctx.Err = some (.text "connection refused") ∧
    (NewResourceFetcher failedCtx).Cluster emptyReader ⟨(), []⟩ =
      .returns (NewResourceFetcher failedCtx, ⟨(), []⟩) ∧
    (NewResourceFetcher failedCtx).ClusterDef emptyReader ⟨(), []⟩ =
      .panics "invalid memory address or nil pointer dereference" ∧
    (NewResourceFetcher failedCtx).ClusterVer emptyReader ⟨(), []⟩ =
      .panics "invalid memory address or nil pointer dereference" :=
  ⟨rfl, rfl, rfl, rfl⟩

/-! ## The replicas alignment reconciler -/

theorem mem_insertByName (a n : String) (l : List String) :
    n ∈ insertByName a l ↔ n = a ∨ n ∈ l := by
  induction l with
  | nil => simp [insertByName]
  | cons b rest ih =>
    unfold insertByName
    split
    · simp
    · simp only [List.mem_cons, ih]
      tauto

theorem mem_sortNames (n : String) (l : List String) : n ∈ sortNames l ↔ n ∈ l := by
  induction l with
  | nil => simp [sortNames]
  | cons a rest ih =>
    have : sortNames (a :: rest) = insertByName a (sortNames rest) := rfl
    rw [this, mem_insertByName, ih]
    simp

/-- Under `Parallel`, the names after the move are the desired names. -/
theorem mem_parallelMove (desired : List String) (ns : String) (pods : List Pod) (n : String) :
    n ∈ (parallelMove desired (pods.map (fun p => p.Name)) ns pods).map (fun p => p.Name) ↔
      n ∈ desired := by
  unfold parallelMove
  simp only [List.map_append, List.mem_append, List.mem_map, List.mem_filter,
    decide_eq_true_eq]
  constructor
  · rintro (⟨p, ⟨_, hd⟩, rfl⟩ | ⟨p, ⟨m, ⟨hm, _⟩, rfl⟩, rfl⟩)
    · exact hd
    · exact hm
  · intro hn
    by_cases hc : ∃ p ∈ pods, p.Name = n
    · obtain ⟨p, hp, rfl⟩ := hc
      exact Or.inl ⟨p, ⟨hp, hn⟩, rfl⟩
    · refine Or.inr ⟨⟨ns, n⟩, ⟨n, ⟨hn, ?_⟩, rfl⟩, rfl⟩
      rintro ⟨p, hp, hpn⟩
      exact hc ⟨p, hp, hpn⟩

/-- C6: under the Parallel policy, for every current set of replica units, one pass of the
replicas alignment reconciler returns a tree whose replica-unit names are exactly the
desired names; on the input of the test (7 replicas, explicit `hello`, generated group
`foo` of 2, current pods `foo-0` and `bar-1`) the result has exactly the 7 pods `hello`,
`foo-0`, `foo-1`, `bar-0`, `bar-1`, `bar-2`, `bar-3`. -/
theorem Reconcile_parallel_reaches_desired :
    (∀ (tree : ObjectTree) (desired : List String),
      tree.Root.PodManagementPolicy = .Parallel →
      desiredNames tree.Root = .ok desired →
      ∃ newTree, ReplicasAlignmentReconciler.Reconcile tree = .ok newTree ∧
        newTree.Root = tree.Root ∧
        ∀ n, n ∈ newTree.podNames ↔ n ∈ desired) ∧
    desiredNames (testRsm .Parallel) =
      .ok ["hello", "foo-0", "foo-1", "bar-0", "bar-1", "bar-2", "bar-3"] ∧
    ReplicasAlignmentReconciler.Reconcile (testTree .Parallel) =
      .ok ⟨testRsm .Parallel,
        [⟨"foo", "foo-0"⟩, ⟨"foo", "bar-1"⟩, ⟨"foo", "hello"⟩, ⟨"foo", "foo-1"⟩,
          ⟨"foo", "bar-0"⟩, ⟨"foo", "bar-2"⟩, ⟨"foo", "bar-3"⟩]⟩ := by
  refine ⟨?_, by rfl, by rfl⟩
  intro tree desired hp hd
  refine ⟨{ tree with Pods := parallelMove desired tree.podNames tree.Root.Namespace tree.Pods },
    ?_, rfl, ?_⟩
  · simp [ReplicasAlignmentReconciler.Reconcile, hd, hp]
  · intro n
    exact mem_parallelMove desired tree.Root.Namespace tree.Pods n

/-- Witness of C6: the general statement applied to the tree of the test. -/
theorem Reconcile_parallel_reaches_desired_witness :
    (testTree .Parallel).Root.PodManagementPolicy = .Parallel ∧
    desiredNames (testTree .Parallel).Root =
      .ok ["hello", "foo-0", "foo-1", "bar-0", "bar-1", "bar-2", "bar-3"] ∧
    ∃ newTree, ReplicasAlignmentReconciler.Reconcile (testTree .Parallel) = .ok newTree ∧
      newTree.Root = (testTree .Parallel).Root ∧
      ∀ n, n ∈ newTree.podNames ↔
        n ∈ ["hello", "foo-0", "foo-1", "bar-0", "bar-1", "bar-2", "bar-3"] :=
  ⟨rfl, by rfl,
    Reconcile_parallel_reaches_desired.1 (testTree .Parallel)
      ["hello", "foo-0", "foo-1", "bar-0", "bar-1", "bar-2", "bar-3"] rfl (by rfl)⟩

/-- Under `OrderedReady` a pass makes at most one move: one creation of a missing desired
name, or one deletion of a name that is not desired. -/
theorem orderedReadyMove_single (desired : List String) (ns : String) (pods : List Pod) :
    orderedReadyMove desired (pods.map (fun p => p.Name)) ns pods = pods ∨
    (∃ n, n ∈ desired ∧ n ∉ pods.map (fun p => p.Name) ∧
      orderedReadyMove desired (pods.map (fun p => p.Name)) ns pods = pods ++ [⟨ns, n⟩]) ∨
    (∃ n, n ∉ desired ∧ n ∈ pods.map (fun p => p.Name) ∧
      (∀ m, m ∈ desired → m ∈ pods.map (fun p => p.Name)) ∧
      orderedReadyMove desired (pods.map (fun p => p.Name)) ns pods =
        pods.filter (fun p => p.Name != n)) := by
  unfold orderedReadyMove
  cases hc : (sortNames desired).filter
      (fun n => decide (n ∉ pods.map (fun p => p.Name))) with
  | cons n rest =>
    right; left
    have hn : n ∈ (sortNames desired).filter
        (fun n => decide (n ∉ pods.map (fun p => p.Name))) := by rw [hc]; simp
    rw [List.mem_filter, mem_sortNames] at hn
    exact ⟨n, hn.1, by simpa using hn.2, rfl⟩
  | nil =>
    have hall : ∀ m, m ∈ desired → m ∈ pods.map (fun p => p.Name) := by
      intro m hm
      by_contra hcon
      have : m ∈ (sortNames desired).filter
          (fun n => decide (n ∉ pods.map (fun p => p.Name))) := by
        rw [List.mem_filter, mem_sortNames]
        exact ⟨hm, by simpa using hcon⟩
      rw [hc] at this
      cases this
    cases hd : ((sortNames (pods.map (fun p => p.Name))).filter
        (fun n => decide (n ∉ desired))).reverse with
    | nil => left; rfl
    | cons n rest =>
      right; right
      have hn : n ∈ ((sortNames (pods.map (fun p => p.Name))).filter
          (fun n => decide (n ∉ desired))).reverse := by rw [hd]; simp
      rw [List.mem_reverse, List.mem_filter, mem_sortNames] at hn
      exact ⟨n, by simpa using hn.2, hn.1, hall, rfl⟩

/-! ## The order of unit names -/

theorem charsBefore_irrefl : ∀ l : List Char, charsBefore l l = false := by
  intro l
  induction l with
  | nil => rfl
  | cons a as ih => simp [charsBefore, ih]

theorem charsBefore_trans :
    ∀ a b c : List Char, charsBefore a b = true → charsBefore b c = true →
      charsBefore a c = true := by
  intro a
  induction a with
  | nil =>
    intro b c hab hbc
    cases b with
    | nil => simp [charsBefore] at hab
    | cons y ys =>
      cases c with
      | nil => simp [charsBefore] at hbc
      | cons z zs => simp [charsBefore]
  | cons x xs ih =>
    intro b c hab hbc
    cases b with
    | nil => simp [charsBefore] at hab
    | cons y ys =>
      cases c with
      | nil => simp [charsBefore] at hbc
      | cons z zs =>
        simp only [charsBefore] at hab hbc ⊢
        by_cases hxy : x.toNat < y.toNat
        · by_cases hyz : y.toNat < z.toNat
          · have : x.toNat < z.toNat := by omega
            simp [this]
          · simp only [hyz, if_false] at hbc
            by_cases hyz2 : y.toNat = z.toNat
            · have : x.toNat < z.toNat := by omega
              simp [this]
            · simp [hyz2] at hbc
        · simp only [hxy, if_false] at hab
          by_cases hxy2 : x.toNat = y.toNat
          · simp only [hxy2, if_true] at hab
            by_cases hyz : y.toNat < z.toNat
            · have : x.toNat < z.toNat := by omega
              simp [this]
            · simp only [hyz, if_false] at hbc
              by_cases hyz2 : y.toNat = z.toNat
              · simp only [hyz2, if_true] at hbc
                have h1 : ¬ x.toNat < z.toNat := by omega
                have h2 : x.toNat = z.toNat := by omega
                rw [if_neg h1, if_pos h2]
                exact ih ys zs hab hbc
              · simp [hyz2] at hbc
          · simp [hxy2] at hab

theorem Char.eq_of_toNat_eq (a b : Char) (h : a.toNat = b.toNat) : a = b := by
  rw [← Char.ofNat_toNat a, ← Char.ofNat_toNat b, h]

theorem charsBefore_total :
    ∀ a b : List Char, a ≠ b → charsBefore a b = true ∨ charsBefore b a = true := by
  intro a
  induction a with
  | nil =>
    intro b hne
    cases b with
    | nil => exact absurd rfl hne
    | cons y ys => left; simp [charsBefore]
  | cons x xs ih =>
    intro b hne
    cases b with
    | nil => right; simp [charsBefore]
    | cons y ys =>
      simp only [charsBefore]
      by_cases hxy : x.toNat < y.toNat
      · left; simp [hxy]
      · by_cases hyx : y.toNat < x.toNat
        · right; simp [hyx]
        · have heq : x.toNat = y.toNat := by omega
          have hc : x = y := Char.eq_of_toNat_eq x y heq
          have hne2 : xs ≠ ys := by
            intro h
            exact hne (by rw [hc, h])
          rcases ih ys hne2 with h | h
          · left; simp [hxy, heq, h]
          · right; simp [hyx, heq, h]

/-- The order of unit names is total. -/
theorem nameBefore_total (a b : String) : nameBefore a b = true ∨ nameBefore b a = true := by
  unfold nameBefore
  simp only
  generalize groupAndOrdinal a = x
  generalize groupAndOrdinal b = y
  obtain ⟨g1, o1⟩ := x
  obtain ⟨g2, o2⟩ := y
  simp only
  by_cases hg : g1 = g2
  · subst hg
    simp only [if_true]
    cases o1 with
    | none => left; rfl
    | some i =>
      cases o2 with
      | none => right; rfl
      | some j =>
        simp only [decide_eq_true_eq]
        omega
  · have hg2 : ¬ g2 = g1 := fun h => hg h.symm
    simp only [hg, hg2, if_false]
    apply charsBefore_total
    intro h
    exact hg (String.ext h)

/-- The order of unit names is transitive. -/
theorem nameBefore_trans (a b c : String) (hab : nameBefore a b = true)
    (hbc : nameBefore b c = true) : nameBefore a c = true := by
  unfold nameBefore at hab hbc ⊢
  simp only at hab hbc ⊢
  generalize groupAndOrdinal a = x at hab ⊢
  generalize groupAndOrdinal b = y at hab hbc
  generalize groupAndOrdinal c = z at hbc ⊢
  obtain ⟨g1, o1⟩ := x
  obtain ⟨g2, o2⟩ := y
  obtain ⟨g3, o3⟩ := z
  simp only at hab hbc ⊢
  by_cases h12 : g1 = g2
  · subst h12
    simp only [if_true] at hab
    by_cases h23 : g1 = g3
    · subst h23
      simp only [if_true] at hbc ⊢
      cases o1 with
      | none => rfl
      | some i =>
        cases o2 with
        | none => simp at hab
        | some j =>
          cases o3 with
          | none => simp at hbc
          | some k =>
            simp only [decide_eq_true_eq] at hab hbc ⊢
            omega
    · simp only [h23, if_false] at hbc ⊢
      exact hbc
  · simp only [h12, if_false] at hab
    by_cases h23 : g2 = g3
    · subst h23
      simp only [h12, if_false]
      exact hab
    · simp only [h23, if_false] at hbc
      have h13 := charsBefore_trans _ _ _ hab hbc
      by_cases hg : g1 = g3
      · subst hg
        rw [charsBefore_irrefl] at h13
        cases h13
      · simp only [hg, if_false]
        exact h13

theorem nameBefore_refl (a : String) : nameBefore a a = true := by
  rcases nameBefore_total a a with h | h <;> exact h

theorem insertByName_pairwise (a : String) :
    ∀ l : List String, l.Pairwise (fun x y => nameBefore x y = true) →
      (insertByName a l).Pairwise (fun x y => nameBefore x y = true) := by
  intro l
  induction l with
  | nil => intro _; simp [insertByName]
  | cons b rest ih =>
    intro h
    rw [List.pairwise_cons] at h
    unfold insertByName
    by_cases hab : nameBefore a b = true
    · rw [if_pos hab, List.pairwise_cons]
      refine ⟨?_, List.pairwise_cons.mpr h⟩
      intro x hx
      rcases List.mem_cons.mp hx with rfl | hx
      · exact hab
      · exact nameBefore_trans _ _ _ hab (h.1 x hx)
    · rw [if_neg hab, List.pairwise_cons]
      refine ⟨?_, ih h.2⟩
      intro x hx
      rcases (mem_insertByName a x rest).mp hx with rfl | hx
      · rcases nameBefore_total x b with h1 | h1
        · exact absurd h1 hab
        · exact h1
      · exact h.1 x hx

/-- The names come out of `sortNames` in ascending order. -/
theorem sortNames_pairwise (l : List String) :
    (sortNames l).Pairwise (fun x y => nameBefore x y = true) := by
  induction l with
  | nil => simp [sortNames]
  | cons a rest ih =>
    have : sortNames (a :: rest) = insertByName a (sortNames rest) := rfl
    rw [this]
    exact insertByName_pairwise a _ ih

/-- Within a group, the order of unit names is the order of the ordinals. -/
theorem nameBefore_ordinal (a b : String) (hab : nameBefore a b = true)
    (hg : (groupAndOrdinal a).1 = (groupAndOrdinal b).1) (i j : Nat)
    (hi : (groupAndOrdinal a).2 = some i) (hj : (groupAndOrdinal b).2 = some j) : i ≤ j := by
  unfold nameBefore at hab
  simp only [hg, if_true, hi, hj, decide_eq_true_eq] at hab
  exact hab

/-- Under `OrderedReady` the move of a pass is the next one: while a desired name is
missing, the creation of the first missing desired name in ascending order; when none is
missing and a name is extra, the deletion of the last extra name in ascending order; and
no move when the names are the desired ones. -/
theorem orderedReadyMove_next (desired : List String) (ns : String) (pods : List Pod) :
    ((∃ m ∈ desired, m ∉ pods.map (fun p => p.Name)) →
      ∃ n, n ∈ desired ∧ n ∉ pods.map (fun p => p.Name) ∧
        orderedReadyMove desired (pods.map (fun p => p.Name)) ns pods = pods ++ [⟨ns, n⟩] ∧
        ∀ m ∈ desired, m ∉ pods.map (fun p => p.Name) → nameBefore n m = true) ∧
    ((∀ m ∈ desired, m ∈ pods.map (fun p => p.Name)) →
      (∃ m ∈ pods.map (fun p => p.Name), m ∉ desired) →
      ∃ n, n ∈ pods.map (fun p => p.Name) ∧ n ∉ desired ∧
        orderedReadyMove desired (pods.map (fun p => p.Name)) ns pods =
          pods.filter (fun p => p.Name != n) ∧
        ∀ m ∈ pods.map (fun p => p.Name), m ∉ desired → nameBefore m n = true) ∧
    ((∀ m ∈ desired, m ∈ pods.map (fun p => p.Name)) →
      (∀ m ∈ pods.map (fun p => p.Name), m ∈ desired) →
      orderedReadyMove desired (pods.map (fun p => p.Name)) ns pods = pods) := by
  have hmissing : ∀ m, m ∈ (sortNames desired).filter
      (fun n => decide (n ∉ pods.map (fun p => p.Name))) ↔
      (m ∈ desired ∧ m ∉ pods.map (fun p => p.Name)) := by
    intro m
    rw [List.mem_filter, mem_sortNames]
    simp
  have hextra : ∀ m, m ∈ (sortNames (pods.map (fun p => p.Name))).filter
      (fun n => decide (n ∉ desired)) ↔
      (m ∈ pods.map (fun p => p.Name) ∧ m ∉ desired) := by
    intro m
    rw [List.mem_filter, mem_sortNames]
    simp
  have hsortedMissing := (sortNames_pairwise desired).filter
    (fun n => decide (n ∉ pods.map (fun p => p.Name)))
  have hsortedExtra := (sortNames_pairwise (pods.map (fun p => p.Name))).filter
    (fun n => decide (n ∉ desired))
  refine ⟨?_, ?_, ?_⟩
  · rintro ⟨m0, hm0, hm0c⟩
    unfold orderedReadyMove
    cases hc : (sortNames desired).filter
        (fun n => decide (n ∉ pods.map (fun p => p.Name))) with
    | nil =>
      have := (hmissing m0).mpr ⟨hm0, hm0c⟩
      rw [hc] at this
      cases this
    | cons n rest =>
      have hn := (hmissing n).mp (by rw [hc]; exact List.mem_cons_self _ _)
      refine ⟨n, hn.1, hn.2, rfl, ?_⟩
      intro m hm hmc
      have hmem := (hmissing m).mpr ⟨hm, hmc⟩
      rw [hc] at hmem hsortedMissing
      rcases List.mem_cons.mp hmem with rfl | hrest
      · exact nameBefore_refl _
      · exact (List.pairwise_cons.mp hsortedMissing).1 m hrest
  · rintro hall ⟨m0, hm0, hm0d⟩
    unfold orderedReadyMove
    have hnone : (sortNames desired).filter
        (fun n => decide (n ∉ pods.map (fun p => p.Name))) = [] := by
      rw [List.eq_nil_iff_forall_not_mem]
      intro m hm
      have := (hmissing m).mp hm
      exact this.2 (hall m this.1)
    rw [hnone]
    cases hd : ((sortNames (pods.map (fun p => p.Name))).filter
        (fun n => decide (n ∉ desired))).reverse with
    | nil =>
      have := (hextra m0).mpr ⟨hm0, hm0d⟩
      rw [← List.mem_reverse, hd] at this
      cases this
    | cons n rest =>
      have hrev : (sortNames (pods.map (fun p => p.Name))).filter
          (fun n => decide (n ∉ desired)) = rest.reverse ++ [n] := by
        rw [← List.reverse_reverse ((sortNames (pods.map (fun p => p.Name))).filter
          (fun n => decide (n ∉ desired))), hd]
        simp
      have hn := (hextra n).mp (by rw [hrev]; simp)
      refine ⟨n, hn.1, hn.2, rfl, ?_⟩
      intro m hm hmd
      have hmem := (hextra m).mpr ⟨hm, hmd⟩
      rw [hrev] at hmem hsortedExtra
      rcases List.mem_append.mp hmem with hrest | hlast
      · exact (List.pairwise_append.mp hsortedExtra).2.2 m hrest n (by simp)
      · simp only [List.mem_singleton] at hlast
        rw [hlast]
        exact nameBefore_refl _
  · intro hall hallc
    unfold orderedReadyMove
    have hnone : (sortNames desired).filter
        (fun n => decide (n ∉ pods.map (fun p => p.Name))) = [] := by
      rw [List.eq_nil_iff_forall_not_mem]
      intro m hm
      have := (hmissing m).mp hm
      exact this.2 (hall m this.1)
    have hnone2 : ((sortNames (pods.map (fun p => p.Name))).filter
        (fun n => decide (n ∉ desired))).reverse = [] := by
      rw [List.reverse_eq_nil_iff, List.eq_nil_iff_forall_not_mem]
      intro m hm
      have := (hextra m).mp hm
      exact this.2 (hallc m this.1)
    rw [hnone, hnone2]

/-- C7: under the OrderedReady policy one pass of the replicas alignment reconciler makes
only the single next legal move. For desired names `hello`, `foo-0`, `foo-1`, `bar-0`,
`bar-1`, `bar-2`, `bar-3` and current pods `foo-0` and `bar-1`, one pass returns a tree
whose pods are exactly `foo-0`, `bar-1`, `bar-0`. On every input a pass keeps every present
desired unit and changes the pods by at most one creation or one deletion; while a desired
name is missing the pass creates the first missing one in ascending order, so ordinal `i`
of a group is created only when every lower desired ordinal of that group exists; when no
name is missing and some are extra, it deletes the last extra one in ascending order, so
no extra unit of that group with a higher ordinal is left behind; and when the names are
the desired ones the tree is unchanged. -/
theorem Reconcile_orderedReady_single_move :
    desiredNames (testRsm .OrderedReady) =
      .ok ["hello", "foo-0", "foo-1", "bar-0", "bar-1", "bar-2", "bar-3"] ∧
    ReplicasAlignmentReconciler.Reconcile (testTree .OrderedReady) =
      .ok ⟨testRsm .OrderedReady, [⟨"foo", "foo-0"⟩, ⟨"foo", "bar-1"⟩, ⟨"foo", "bar-0"⟩]⟩ ∧
    (∀ (tree : ObjectTree) (desired : List String),
      tree.Root.PodManagementPolicy = .OrderedReady →
      desiredNames tree.Root = .ok desired →
      ∃ newTree, ReplicasAlignmentReconciler.Reconcile tree = .ok newTree ∧
        (∀ p ∈ tree.Pods, p.Name ∈ desired → p ∈ newTree.Pods) ∧
        (newTree.Pods = tree.Pods ∨
          (∃ n, n ∈ desired ∧ n ∉ tree.podNames ∧
            newTree.Pods = tree.Pods ++ [⟨tree.Root.Namespace, n⟩]) ∨
          (∃ n, n ∉ desired ∧ n ∈ tree.podNames ∧
            newTree.Pods = tree.Pods.filter (fun p => p.Name != n))) ∧
        newTree.Root = tree.Root ∧
        ((∃ m ∈ desired, m ∉ tree.podNames) →
          ∃ n, n ∈ desired ∧ n ∉ tree.podNames ∧
            newTree.Pods = tree.Pods ++ [⟨tree.Root.Namespace, n⟩] ∧
            (∀ m ∈ desired, m ∉ tree.podNames → nameBefore n m = true) ∧
            (∀ m ∈ desired, (groupAndOrdinal m).1 = (groupAndOrdinal n).1 →
              ∀ i j, (groupAndOrdinal n).2 = some i → (groupAndOrdinal m).2 = some j →
                j < i → m ∈ tree.podNames)) ∧
        ((∀ m ∈ desired, m ∈ tree.podNames) → (∃ m ∈ tree.podNames, m ∉ desired) →
          ∃ n, n ∈ tree.podNames ∧ n ∉ desired ∧
            newTree.Pods = tree.Pods.filter (fun p => p.Name != n) ∧
            (∀ m ∈ tree.podNames, m ∉ desired → nameBefore m n = true) ∧
            (∀ m ∈ tree.podNames, m ∉ desired →
              (groupAndOrdinal m).1 = (groupAndOrdinal n).1 →
              ∀ i j, (groupAndOrdinal n).2 = some i → (groupAndOrdinal m).2 = some j →
                j ≤ i)) ∧
        ((∀ m ∈ desired, m ∈ tree.podNames) → (∀ m ∈ tree.podNames, m ∈ desired) →
          newTree.Pods = tree.Pods)) := by
  refine ⟨by rfl, by rfl, ?_⟩
  intro tree desired hp hd
  obtain ⟨hcreate, hdelete, hsame⟩ :=
    orderedReadyMove_next desired tree.Root.Namespace tree.Pods
  refine ⟨{ tree with
    Pods := orderedReadyMove desired tree.podNames tree.Root.Namespace tree.Pods }, ?_, ?_, ?_,
    rfl, ?_, ?_, ?_⟩
  · simp [ReplicasAlignmentReconciler.Reconcile, hd, hp]
  · intro p hp hpd
    rcases orderedReadyMove_single desired tree.Root.Namespace tree.Pods with h | ⟨n, _, _, h⟩ |
      ⟨n, hn, _, _, h⟩
    · show p ∈ orderedReadyMove desired tree.podNames tree.Root.Namespace tree.Pods
      unfold ObjectTree.podNames
      rw [h]; exact hp
    · show p ∈ orderedReadyMove desired tree.podNames tree.Root.Namespace tree.Pods
      unfold ObjectTree.podNames
      rw [h]; exact List.mem_append_left _ hp
    · show p ∈ orderedReadyMove desired tree.podNames tree.Root.Namespace tree.Pods
      unfold ObjectTree.podNames
      rw [h, List.mem_filter]
      refine ⟨hp, ?_⟩
      simp only [bne_iff_ne, ne_eq]
      rintro rfl
      exact hn hpd
  · rcases orderedReadyMove_single desired tree.Root.Namespace tree.Pods with h | ⟨n, h1, h2, h⟩ |
      ⟨n, h1, h2, _, h⟩
    · exact Or.inl h
    · exact Or.inr (Or.inl ⟨n, h1, h2, h⟩)
    · exact Or.inr (Or.inr ⟨n, h1, h2, h⟩)
  · intro hmiss
    obtain ⟨n, h1, h2, h3, h4⟩ := hcreate hmiss
    refine ⟨n, h1, h2, h3, h4, ?_⟩
    intro m hm hg i j hi hj hlt
    by_contra hmc
    have := nameBefore_ordinal n m (h4 m hm hmc) hg.symm i j hi hj
    omega
  · intro hall hext
    obtain ⟨n, h1, h2, h3, h4⟩ := hdelete hall hext
    refine ⟨n, h1, h2, h3, h4, ?_⟩
    intro m hm hmd hg i j hi hj
    exact nameBefore_ordinal m n (h4 m hm hmd) hg j i hj hi
  · intro hall hallc
    exact hsame hall hallc

/-- Witness of C7: the general statement applied to the tree of the test. -/
theorem Reconcile_orderedReady_single_move_witness :
    (testTree .OrderedReady).Root.PodManagementPolicy = .OrderedReady ∧
    desiredNames (testTree .OrderedReady).Root =
      .ok ["hello", "foo-0", "foo-1", "bar-0", "bar-1", "bar-2", "bar-3"] ∧
    ∃ newTree, ReplicasAlignmentReconciler.Reconcile (testTree .OrderedReady) = .ok newTree ∧
      (∀ p ∈ (testTree .OrderedReady).Pods,
        p.Name ∈ ["hello", "foo-0", "foo-1", "bar-0", "bar-1", "bar-2", "bar-3"] →
        p ∈ newTree.Pods) :=
  ⟨rfl, by rfl,
    (Reconcile_orderedReady_single_move.2.2 (testTree .OrderedReady)
      ["hello", "foo-0", "foo-1", "bar-0", "bar-1", "bar-2", "bar-3"] rfl (by rfl)).imp
      (fun _ h => ⟨h.1, h.2.1⟩)⟩

/-! ## Re-execution of a plan -/

end KubeBlocks
